import Mathlib

/-!
Verification development for the docker engine of drone-runtime
(src/engine/docker/docker.go).

The development has two parts:

* an embedding of `parseImage` together with the image-reference grammar of
  the vendored `github.com/docker/distribution/reference` package that it
  calls (`ParseNormalizedNamed`, `TagNameOnly`, `Domain`, `String`);
* an embedding of the engine operations `Setup`, `Create`, `Start`, `Wait`,
  `Tail` and `Destroy`.  The docker daemon is external, so its operations are
  modelled as oracles indexed by a call counter, plus a set of live resources
  used to express the cleanup contract; every engine operation additionally
  returns the list of runtime calls it issued, in order.

Strings are represented as `List Char` wherever character-level reasoning is
needed (the reference grammar); engine identifiers use `String`.
-/

/-! ## Character classes of the reference grammar -/

/-- `[a-z0-9]`, the alphanumerics allowed in a repository path component. -/
def isLowerAlnum (c : Char) : Bool :=
  ('a' ≤ c && c ≤ 'z') || ('0' ≤ c && c ≤ '9')

/-- `[A-Z]`. -/
def isUpperAlpha (c : Char) : Bool :=
  'A' ≤ c && c ≤ 'Z'

/-- `[a-zA-Z0-9]`, the alphanumerics allowed in a domain component. -/
def isAlnumAny (c : Char) : Bool :=
  isLowerAlnum c || isUpperAlpha c

/-- `[a-zA-Z]`. -/
def isAlpha (c : Char) : Bool :=
  ('a' ≤ c && c ≤ 'z') || ('A' ≤ c && c ≤ 'Z')

/-- `[0-9]`. -/
def isDigitChar (c : Char) : Bool :=
  '0' ≤ c && c ≤ '9'

/-- `[a-f0-9]`, lowercase hexadecimal. -/
def isHexLower (c : Char) : Bool :=
  isDigitChar c || ('a' ≤ c && c ≤ 'f')

/-- `[0-9a-fA-F]`, hexadecimal as allowed in the digest grammar. -/
def isHexAny (c : Char) : Bool :=
  isDigitChar c || ('a' ≤ c && c ≤ 'f') || ('A' ≤ c && c ≤ 'F')

/-- `\w = [A-Za-z0-9_]`, word characters of the tag grammar. -/
def isWordChar (c : Char) : Bool :=
  isAlnumAny c || c = '_'

/-- ASCII lower-casing, as `strings.ToLower` behaves on the ASCII range
(the grammar only admits ASCII, so this is the relevant fragment). -/
def toLowerChar (c : Char) : Char :=
  if 'A' ≤ c && c ≤ 'Z' then Char.ofNat (c.toNat + 32) else c

/-! ## List utilities mirroring the `strings` operations used -/

/-- Split at the first occurrence of `c`: if `s = a ++ c :: b` with `c ∉ a`
then `some (a, b)`, otherwise `none`. -/
def breakAtFirst (c : Char) : List Char → Option (List Char × List Char)
  | [] => none
  | x :: xs =>
    if x = c then some ([], xs)
    else (breakAtFirst c xs).map (fun p => (x :: p.1, p.2))

/-- Split at the last occurrence of `c`: if `s = a ++ c :: b` with `c ∉ b`
then `some (a, b)`, otherwise `none`. -/
def breakAtLast (c : Char) (s : List Char) : Option (List Char × List Char) :=
  match breakAtFirst c s.reverse with
  | none => none
  | some p => some (p.2.reverse, p.1.reverse)

/-- Split on every occurrence of `c` (like `strings.Split`). -/
def splitOnChar (c : Char) : List Char → List (List Char)
  | [] => [[]]
  | x :: xs =>
    let r := splitOnChar c xs
    if x = c then [] :: r
    else
      match r with
      | [] => [[x]]
      | h :: t => (x :: h) :: t

/-- The maximal runs of characters that are not `[a-z0-9]`, in order.
`acc` accumulates the current run in reverse. -/
def nonAlnumRuns (acc : List Char) : List Char → List (List Char)
  | [] => if acc = [] then [] else [acc.reverse]
  | c :: rest =>
    if isLowerAlnum c then
      if acc = [] then nonAlnumRuns [] rest
      else acc.reverse :: nonAlnumRuns [] rest
    else nonAlnumRuns (c :: acc) rest

/-- `strings.HasSuffix` on character lists. -/
def hasSuffixL (s suf : List Char) : Bool :=
  s.drop (s.length - suf.length) == suf

/-- Decidable equality of fallible results. -/
instance {α β : Type} [DecidableEq α] [DecidableEq β] : DecidableEq (Except α β)
  | Except.error a, Except.error b =>
    if h : a = b then isTrue (by rw [h])
    else isFalse (by intro hh; cases hh; exact h rfl)
  | Except.error _, Except.ok _ => isFalse (by intro hh; cases hh)
  | Except.ok _, Except.error _ => isFalse (by intro hh; cases hh)
  | Except.ok a, Except.ok b =>
    if h : a = b then isTrue (by rw [h])
    else isFalse (by intro hh; cases hh; exact h rfl)

/-! ## The reference grammar

Modelled from the `github.com/docker/distribution/reference` package that
`parseImage` in src/engine/docker/docker.go calls (the package is an external
dependency of the source; the regular expressions of its `regexp.go` are
rendered as recursive character-list checkers). -/

/-- A separator run inside a path component: the regexp separator is
`(?:[._]|__|[-]*)`, so a maximal non-alphanumeric run must be `.`, `_`,
`__` or a nonempty run of `-`. -/
def isSepRun (s : List Char) : Bool :=
  s == ['.'] || s == ['_'] || s == ['_', '_'] || (!s.isEmpty && s.all (· = '-'))

/-- `path-component = [a-z0-9]+(?:(?:[._]|__|[-]*)[a-z0-9]+)*`. -/
def isPathComponent (s : List Char) : Bool :=
  !s.isEmpty && isLowerAlnum (s.headD ' ') && isLowerAlnum (s.getLastD ' ')
    && (nonAlnumRuns [] s).all isSepRun

/-- `path = path-component ('/' path-component)*`. -/
def isPathL (s : List Char) : Bool :=
  (splitOnChar '/' s).all isPathComponent

/-- `domain-component = [a-zA-Z0-9]|[a-zA-Z0-9][a-zA-Z0-9-]*[a-zA-Z0-9]`. -/
def isDomainComponent (s : List Char) : Bool :=
  !s.isEmpty && isAlnumAny (s.headD ' ') && isAlnumAny (s.getLastD ' ')
    && s.all (fun c => isAlnumAny c || c = '-')

/-- `domain = domain-component ('.' domain-component)* (':' [0-9]+)?`. -/
def isDomainL (s : List Char) : Bool :=
  match breakAtFirst ':' s with
  | none => (splitOnChar '.' s).all isDomainComponent
  | some p =>
    (splitOnChar '.' p.1).all isDomainComponent
      && !p.2.isEmpty && p.2.all isDigitChar

/-- `tag = [\w][\w.-]{0,127}`. -/
def isTagL (s : List Char) : Bool :=
  match s with
  | [] => false
  | c :: rest =>
    isWordChar c && rest.length ≤ 127
      && rest.all (fun d => isWordChar d || d = '.' || d = '-')

/-- Continuation of the digest-algorithm grammar after a valid character:
separators `[-_+.]` must each be followed by a letter. -/
def digestAlgGo : List Char → Bool
  | [] => true
  | c :: rest =>
    if isAlnumAny c then digestAlgGo rest
    else if c = '-' || c = '_' || c = '+' || c = '.' then
      match rest with
      | [] => false
      | d :: rest2 => isAlpha d && digestAlgGo rest2
    else false

/-- `algorithm = [A-Za-z][A-Za-z0-9]*(?:[-_+.][A-Za-z][A-Za-z0-9]*)*`. -/
def isDigestAlg : List Char → Bool
  | [] => false
  | c :: rest => isAlpha c && digestAlgGo rest

/-- `digest = algorithm ':' [0-9a-fA-F]{32,}` (the grammar-level check of
the reference regexp). -/
def isDigestGrammar (s : List Char) : Bool :=
  match breakAtFirst ':' s with
  | none => false
  | some p => isDigestAlg p.1 && 32 ≤ p.2.length && p.2.all isHexAny

/-- Errors of the reference parser (the distinct error values returned by
`Parse`/`ParseNormalizedNamed`/`digest.Parse`; all of them surface to the
engine as an invalid-reference failure). -/
inductive ParseErr
  | invalidFormat
  | nameEmpty
  | containsUppercase
  | nameTooLong
  | repoLowercase
  | hexIdentifier
  | digestUnsupported
  | digestInvalid
deriving DecidableEq

/-- A parsed named reference: `domain`/`path` from the name, plus optional
`tag` and `digest` components (empty list = absent). -/
structure NamedRef where
  domain : List Char
  path : List Char
  tag : List Char
  digest : List Char
deriving DecidableEq

/-- Validation performed by `digest.Parse` on the digest component: the
algorithm must be one of the available algorithms with an encoded part of
exactly the right lowercase-hexadecimal length; a string that satisfies the
grammar but names an unknown algorithm is unsupported. -/
def digestValidate (s : List Char) : Option ParseErr :=
  match breakAtFirst ':' s with
  | none => some ParseErr.digestInvalid
  | some p =>
    if p.1.isEmpty || p.2.isEmpty then some ParseErr.digestInvalid
    else if p.1 = "sha256".data then
      if p.2.length = 64 && p.2.all isHexLower then none else some ParseErr.digestInvalid
    else if p.1 = "sha384".data then
      if p.2.length = 96 && p.2.all isHexLower then none else some ParseErr.digestInvalid
    else if p.1 = "sha512".data then
      if p.2.length = 128 && p.2.all isHexLower then none else some ParseErr.digestInvalid
    else some ParseErr.digestUnsupported

/-- The `anchoredNameRegexp` split of a name into optional domain and path.
The optional domain group is preferred when it matches (the domain cannot
contain `/`, so it can only be the segment before the first `/`); if that
interpretation fails the whole name is tried as a bare path. -/
def nameMatch (name : List Char) : Option (List Char × List Char) :=
  match breakAtFirst '/' name with
  | none => if isPathL name then some ([], name) else none
  | some p =>
    if isDomainL p.1 && isPathL p.2 then some (p.1, p.2)
    else if isPathL name then some ([], name) else none

/-- Matching of the full `ReferenceRegexp`
`name (':' tag)? ('@' digest)?`: neither the name nor the tag may contain
`@`, so the digest starts at the first `@`; the tag separator is the last
`:` not followed by a `/` (a `:` followed by `/` can only be a port).
Returns `(domain, path, tag, digest)` on a match. -/
def matchRefFull (t : List Char) :
    Option (List Char × List Char × List Char × List Char) :=
  let nameTag := match breakAtFirst '@' t with
    | none => t
    | some p => p.1
  let dig := match breakAtFirst '@' t with
    | none => ([] : List Char)
    | some p => p.2
  if (breakAtFirst '@' t).isSome && !isDigestGrammar dig then none
  else
    match breakAtLast ':' nameTag with
    | none =>
      (nameMatch nameTag).map (fun q => (q.1, q.2, [], dig))
    | some p =>
      if p.2.contains '/' then
        (nameMatch nameTag).map (fun q => (q.1, q.2, [], dig))
      else if isTagL p.2 then
        (nameMatch p.1).map (fun q => (q.1, q.2, p.2, dig))
      else none

/-- The length of the matched name component (`matches[1]`). -/
def nameLength (domain path : List Char) : Nat :=
  (if domain.isEmpty then path else domain ++ '/' :: path).length

/-- `reference.Parse`: match the reference regexp, then check the
255-character name bound, then validate the digest. -/
def parseRef (t : List Char) : Except ParseErr NamedRef :=
  match matchRefFull t with
  | none =>
    if t.isEmpty then Except.error ParseErr.nameEmpty
    else if (matchRefFull (t.map toLowerChar)).isSome then
      Except.error ParseErr.containsUppercase
    else Except.error ParseErr.invalidFormat
  | some (dom, path, tag, dig) =>
    if 255 < nameLength dom path then Except.error ParseErr.nameTooLong
    else if dig.isEmpty then Except.ok ⟨dom, path, tag, []⟩
    else
      match digestValidate dig with
      | some e => Except.error e
      | none => Except.ok ⟨dom, path, tag, dig⟩

/-- `splitDockerDomain`: pick the registry domain (defaulting to
`docker.io`, mapping the legacy `index.docker.io`, and prefixing `library/`
for single-segment official images). -/
def splitDockerDomain (name : List Char) : List Char × List Char :=
  let p := match breakAtFirst '/' name with
    | none => ("docker.io".data, name)
    | some q =>
      if !(q.1.contains '.' || q.1.contains ':') && q.1 ≠ "localhost".data then
        ("docker.io".data, name)
      else (q.1, q.2)
  let domain := if p.1 = "index.docker.io".data then "docker.io".data else p.1
  if domain = "docker.io".data && !p.2.contains '/' then
    (domain, "library/".data ++ p.2)
  else (domain, p.2)

/-- `reference.ParseNormalizedNamed`: reject 64-hex identifiers, split off
the docker domain, reject uppercase repository names (`strings.ToLower`
modelled on the ASCII range, which is all the grammar admits), and parse the
re-assembled reference. -/
def parseNormalizedNamed (s : List Char) : Except ParseErr NamedRef :=
  if s.length = 64 && s.all isHexLower then Except.error ParseErr.hexIdentifier
  else
    let p := splitDockerDomain s
    let remoteName := match breakAtFirst ':' p.2 with
      | none => p.2
      | some q => q.1
    if remoteName.any isUpperAlpha then Except.error ParseErr.repoLowercase
    else parseRef (p.1 ++ '/' :: p.2)

/-- `reference.TagNameOnly`: add the default `latest` tag to a reference
that has neither tag nor digest. -/
def tagNameOnly (r : NamedRef) : NamedRef :=
  if r.tag.isEmpty && r.digest.isEmpty then { r with tag := "latest".data } else r

/-- `Named.Name()`: `domain/path`, or just `path` when the domain is empty. -/
def refName (r : NamedRef) : List Char :=
  if r.domain.isEmpty then r.path else r.domain ++ '/' :: r.path

/-- `Named.String()`: the name followed by `:tag` and `@digest` when
present. -/
def refString (r : NamedRef) : List Char :=
  refName r ++ (if r.tag.isEmpty then [] else ':' :: r.tag)
    ++ (if r.digest.isEmpty then [] else '@' :: r.digest)

/-- `parseImage` from src/engine/docker/docker.go: normalize, force the
default tag, and return the canonical string, the domain, and whether the
canonical string ends in `:latest`. -/
def parseImage (s : List Char) : Except ParseErr (List Char × List Char × Bool) :=
  match parseNormalizedNamed s with
  | Except.error e => Except.error e
  | Except.ok named0 =>
    let named := tagNameOnly named0
    Except.ok (refString named, named.domain, hasSuffixL (refString named) (':' :: "latest".data))

/-- The tag of a canonical reference string: the text after the last `:`
of the part before any `@`, provided no `/` follows that `:` (empty list
when the string carries no tag). -/
def stringTag (c : List Char) : List Char :=
  let nameTag := match breakAtFirst '@' c with
    | none => c
    | some p => p.1
  match breakAtLast ':' nameTag with
  | none => []
  | some p => if p.2.contains '/' then [] else p.2

/-! ## Engine data model

Mirrors the `engine` package types used by src/engine/docker/docker.go.
The `engine` package itself is not under src/, so the shapes follow their
use sites in docker.go and the spec's data model (§3, §6). -/

/-- A declared volume; `emptyDir` mirrors the `EmptyDir` pointer (`none` =
externally mounted, `some` = ephemeral). -/
structure Volume where
  uid : String
  emptyDir : Option Unit
deriving DecidableEq

/-- A named file payload of the spec (bytes modelled as `List Nat`). -/
structure SpecFile where
  name : String
  data : List Nat
deriving DecidableEq

/-- A file-mount request on a step: payload name, destination path, mode. -/
structure FileMount where
  name : String
  path : String
  mode : Nat
deriving DecidableEq

/-- The pull policy of a step (`engine.PullDefault/PullAlways/PullNever`). -/
inductive PullPolicy
  | pullDefault
  | pullAlways
  | pullNever
deriving DecidableEq

/-- The docker configuration of a step. -/
structure StepDocker where
  image : List Char
  pullPolicy : PullPolicy
deriving DecidableEq

/-- One pipeline step. -/
structure Step where
  uid : String
  docker : Option StepDocker
  files : List FileMount
deriving DecidableEq

/-- The docker section of the spec: the declared volumes. -/
structure SpecDocker where
  volumes : List Volume
deriving DecidableEq

/-- A registry authorization entry keyed by domain. -/
structure Auth where
  username : String
  password : String
deriving DecidableEq

/-- The pipeline spec as used by the docker engine. -/
structure Spec where
  uid : String
  labels : List (String × String)
  steps : List Step
  docker : Option SpecDocker
  auths : List (List Char × Auth)
  files : List SpecFile
deriving DecidableEq

/-- Modelled from the spec: `engine.LookupAuth` (§6, authorization lookup:
a function mapping (spec, domain) to credentials and a found flag; the
engine package holding it is not under src/). -/
def LookupAuth (spec : Spec) (domain : List Char) : Option Auth :=
  (spec.auths.find? (fun p => p.1 == domain)).map (·.2)

/-- Modelled from the spec: `engine.LookupFile` (§6, file payload lookup:
a function mapping (spec, name) to bytes and a found flag; the engine
package holding it is not under src/). -/
def LookupFile (spec : Spec) (name : String) : Option SpecFile :=
  spec.files.find? (fun f => f.name == name)

/-- Modelled from the spec: `createTarfile` (§4.4, Archive Builder: a
deterministic packaging of one payload plus destination metadata; its
source file is not under src/). -/
structure Tarfile where
  path : String
  mode : Nat
  data : List Nat
deriving DecidableEq

/-- Modelled from the spec: the archive entry for one payload (§4.4). -/
def createTarfile (f : SpecFile) (m : FileMount) : Tarfile :=
  ⟨m.path, m.mode, f.data⟩

/-! ## The container runtime as an oracle-driven world -/

/-- Errors returned by runtime operations.  `imageNotFound` is the
distinguishable condition tested by `docker.IsErrImageNotFound`; every
other runtime failure is `generic`. -/
inductive RTErr
  | imageNotFound
  | generic (code : Nat)
deriving DecidableEq

/-- `docker.IsErrImageNotFound` lifted to the optional error of a call
(false on `nil`). -/
def isErrImageNotFound : Option RTErr → Bool
  | some RTErr.imageNotFound => true
  | _ => false

/-- Result of `ContainerInspect`: the fields of `info.State` read by
`Wait`. -/
structure ContainerInfo where
  running : Bool
  exitCode : Int
  oomKilled : Bool
deriving DecidableEq

/-- `engine.State`, the execution state returned by `Wait`. -/
structure EngineState where
  exited : Bool
  exitCode : Int
  oomKilled : Bool
deriving DecidableEq

/-- One runtime API call, as recorded in an operation's trace. -/
inductive Call
  | volumeCreate (name driver : String) (labels : List (String × String))
  | networkCreate (name driver : String) (labels : List (String × String))
  | imagePull (image : List Char)
  | containerCreate (name : String)
  | copyToContainer (container path : String) (tar : Tarfile)
  | containerStart (name : String)
  | containerWait (name : String)
  | containerInspect (name : String)
  | containerLogs (name : String)
  | containerKill (name signal : String)
  | containerRemove (name : String)
  | volumeRemove (name : String)
  | networkRemove (name : String)
deriving DecidableEq

/-- The external docker daemon, modelled as one outcome oracle per
operation, indexed by the position of the call in the engine's call
sequence (`none` = the call succeeds). -/
structure Client where
  volumeCreateO : Nat → Option RTErr
  networkCreateO : Nat → Option RTErr
  pullO : Nat → Option RTErr
  createO : Nat → Option RTErr
  copyO : Nat → Option RTErr
  killO : Nat → Option RTErr
  containerRemoveO : Nat → Option RTErr
  volumeRemoveO : Nat → Option RTErr
  networkRemoveO : Nat → Option RTErr
  startO : Nat → Option RTErr
  inspectO : Nat → Except RTErr ContainerInfo
  logsO : Nat → Option RTErr

/-- The mutable world: the call counter and the sets of live runtime
resources (used to express the cleanup contract that removing an absent
resource succeeds). -/
structure World where
  time : Nat
  volumes : List String
  networks : List String
  containers : List String

/-- Advance the call counter by one call. -/
def tick (w : World) : World :=
  { w with time := w.time + 1 }

/-- `VolumeCreate`: outcome from the oracle; on success the volume exists. -/
def volumeCreateCall (c : Client) (name : String) (w : World) :
    Option RTErr × World :=
  match c.volumeCreateO w.time with
  | none => (none, { tick w with volumes := name :: w.volumes })
  | some e => (some e, tick w)

/-- `NetworkCreate`: outcome from the oracle; on success the network
exists. -/
def networkCreateCall (c : Client) (name : String) (w : World) :
    Option RTErr × World :=
  match c.networkCreateO w.time with
  | none => (none, { tick w with networks := name :: w.networks })
  | some e => (some e, tick w)

/-- `ImagePull`: outcome from the oracle. -/
def imagePullCall (c : Client) (w : World) : Option RTErr × World :=
  (c.pullO w.time, tick w)

/-- `ContainerCreate`: outcome from the oracle; on success the container
exists. -/
def containerCreateCall (c : Client) (name : String) (w : World) :
    Option RTErr × World :=
  match c.createO w.time with
  | none => (none, { tick w with containers := name :: w.containers })
  | some e => (some e, tick w)

/-- `CopyToContainer`: outcome from the oracle. -/
def copyCall (c : Client) (w : World) : Option RTErr × World :=
  (c.copyO w.time, tick w)

/-- `ContainerKill`: outcome from the oracle (its result is discarded by
`Destroy`). -/
def containerKillCall (c : Client) (w : World) : Option RTErr × World :=
  (c.killO w.time, tick w)

/-- `ContainerRemove`: removing an absent container is treated as success
(the cleanup contract of §4.1); removing a present one consults the oracle
and on success the container is gone. -/
def containerRemoveCall (c : Client) (name : String) (w : World) :
    Option RTErr × World :=
  if name ∈ w.containers then
    match c.containerRemoveO w.time with
    | none => (none, { tick w with containers := w.containers.filter (fun x => !(x == name)) })
    | some e => (some e, tick w)
  else (none, tick w)

/-- `VolumeRemove`: removing an absent volume is treated as success (the
cleanup contract of §4.1); removing a present one consults the oracle and
on success the volume is gone. -/
def volumeRemoveCall (c : Client) (name : String) (w : World) :
    Option RTErr × World :=
  if name ∈ w.volumes then
    match c.volumeRemoveO w.time with
    | none => (none, { tick w with volumes := w.volumes.filter (fun x => !(x == name)) })
    | some e => (some e, tick w)
  else (none, tick w)

/-- `NetworkRemove`: removing an absent network is treated as success (the
cleanup contract of §4.1); removing a present one consults the oracle and
on success the network is gone. -/
def networkRemoveCall (c : Client) (name : String) (w : World) :
    Option RTErr × World :=
  if name ∈ w.networks then
    match c.networkRemoveO w.time with
    | none => (none, { tick w with networks := w.networks.filter (fun x => !(x == name)) })
    | some e => (some e, tick w)
  else (none, tick w)

/-- `ContainerStart`: outcome from the oracle. -/
def startCall (c : Client) (w : World) : Option RTErr × World :=
  (c.startO w.time, tick w)

/-- `ContainerInspect`: outcome from the oracle. -/
def inspectCall (c : Client) (w : World) : Except RTErr ContainerInfo × World :=
  (c.inspectO w.time, tick w)

/-- `ContainerLogs`: outcome from the oracle. -/
def logsCall (c : Client) (w : World) : Option RTErr × World :=
  (c.logsO w.time, tick w)

/-! ## The docker engine -/

/-- `dockerEngine` from docker.go: the spec and the runtime client. -/
structure dockerEngine where
  spec : Spec
  client : Client

namespace Docker

/-- The volume-creation loop of `Setup`: skip volumes without `EmptyDir`,
create the rest with the `local` driver, stop at the first error. -/
def setupVolumes (e : dockerEngine) : List Volume → World →
    Option RTErr × World × List Call
  | [], w => (none, w, [])
  | vol :: rest, w =>
    if vol.emptyDir = none then setupVolumes e rest w
    else
      match volumeCreateCall e.client vol.uid w with
      | (some err, w') =>
        (some err, w', [Call.volumeCreate vol.uid "local" e.spec.labels])
      | (none, w') =>
        match setupVolumes e rest w' with
        | (r, w'', t) =>
          (r, w'', Call.volumeCreate vol.uid "local" e.spec.labels :: t)

/-- `Setup`: create the ephemeral volumes (when the spec has a docker
section), then the bridge network named after the spec, returning the
network-creation result. -/
def Setup (e : dockerEngine) (w : World) : Option RTErr × World × List Call :=
  let phase1 := match e.spec.docker with
    | none => (none, w, [])
    | some d => setupVolumes e d.volumes w
  match phase1 with
  | (some err, w₁, t₁) => (some err, w₁, t₁)
  | (none, w₁, t₁) =>
    match networkCreateCall e.client e.spec.uid w₁ with
    | (r, w₂) =>
      (r, w₂, t₁ ++ [Call.networkCreate e.spec.uid "bridge" e.spec.labels])

/-- The pull-before-create condition of `Create`:
`PullAlways || (PullDefault && latest)`. -/
def prePullCond (sd : StepDocker) (latest : Bool) : Bool :=
  sd.pullPolicy == PullPolicy.pullAlways
    || (sd.pullPolicy == PullPolicy.pullDefault && latest)

/-- The file-mount loop at the end of `Create`: look up each payload,
silently skipping unknown names, and copy the archive of each found payload
to the container root, stopping at the first copy error. -/
def copyFiles (e : dockerEngine) (uid : String) : List FileMount → World →
    Option RTErr × World × List Call
  | [], w => (none, w, [])
  | m :: rest, w =>
    match LookupFile e.spec m.name with
    | none => copyFiles e uid rest w
    | some f =>
      match copyCall e.client w with
      | (some err, w') =>
        (some err, w', [Call.copyToContainer uid "/" (createTarfile f m)])
      | (none, w') =>
        match copyFiles e uid rest w' with
        | (r, w'', t) =>
          (r, w'', Call.copyToContainer uid "/" (createTarfile f m) :: t)

/-- The container-creation phase of `Create`: one `ContainerCreate`, and
when it fails with the image-not-found condition and the policy is not
`PullNever`, one recovery pull followed by one re-creation; a recovery-pull
failure is returned as the result. -/
def createContainerPhase (e : dockerEngine) (step : Step) (sd : StepDocker)
    (w : World) : Option RTErr × World × List Call :=
  match containerCreateCall e.client step.uid w with
  | (err, w₁) =>
    if isErrImageNotFound err && !(sd.pullPolicy == PullPolicy.pullNever) then
      match imagePullCall e.client w₁ with
      | (some perr, w₂) =>
        (some perr, w₂, [Call.containerCreate step.uid, Call.imagePull sd.image])
      | (none, w₂) =>
        match containerCreateCall e.client step.uid w₂ with
        | (err₂, w₃) =>
          (err₂, w₃, [Call.containerCreate step.uid, Call.imagePull sd.image,
            Call.containerCreate step.uid])
    else (err, w₁, [Call.containerCreate step.uid])

/-- Errors returned by `Create`: the missing-configuration error, a
reference-parse error, or a runtime error. -/
inductive CreateErr
  | missingConfiguration
  | ref (e : ParseErr)
  | rt (e : RTErr)
deriving DecidableEq

/-- The tail of `Create` after the optional pre-pull: container creation
(with recovery) and then the file mounts. -/
def createRest (e : dockerEngine) (step : Step) (sd : StepDocker) (w : World)
    (t₀ : List Call) : Option CreateErr × World × List Call :=
  match createContainerPhase e step sd w with
  | (some err, w', t) => (some (CreateErr.rt err), w', t₀ ++ t)
  | (none, w', t) =>
    match copyFiles e step.uid step.files w' with
    | (r, w'', t₂) => (r.map CreateErr.rt, w'', t₀ ++ t ++ t₂)

/-- `Create`: require the docker configuration, parse the image reference,
look up registry credentials for the domain (absence is not an error),
optionally pull, then create the container and inject the files. -/
def Create (e : dockerEngine) (step : Step) (w : World) :
    Option CreateErr × World × List Call :=
  match step.docker with
  | none => (some CreateErr.missingConfiguration, w, [])
  | some sd =>
    match parseImage sd.image with
    | Except.error pe => (some (CreateErr.ref pe), w, [])
    | Except.ok (_, domain, latest) =>
      -- credentials are attached to the pull options; the lookup itself
      -- issues no runtime call and its absence is not an error.
      let _auth := LookupAuth e.spec domain
      if prePullCond sd latest then
        match imagePullCall e.client w with
        | (some perr, w₁) =>
          (some (CreateErr.rt perr), w₁, [Call.imagePull sd.image])
        | (none, w₁) => createRest e step sd w₁ [Call.imagePull sd.image]
      else createRest e step sd w []

/-- `Start`: start the step's container. -/
def Start (e : dockerEngine) (step : Step) (w : World) :
    Option RTErr × World × List Call :=
  match startCall e.client w with
  | (r, w') => (r, w', [Call.containerStart step.uid])

/-- The value delivered by whichever of the two `ContainerWait` channels
resolved first; `Wait` discards it either way. -/
inductive WaitSignal
  | body (statusCode : Int)
  | errc (e : RTErr)

/-- `Wait`: block on `ContainerWait` until either channel resolves (the
delivered value `sig` is discarded), then inspect the container; an inspect
error is returned, otherwise the state is reported with `exited := true`
from the inspected exit code and OOM flag — even when the inspected state
is still running (the empty `if info.State.Running` branch of the source).
-/
def Wait (e : dockerEngine) (step : Step) (sig : WaitSignal) (w : World) :
    Except RTErr EngineState × World × List Call :=
  let w₁ := tick w
  match inspectCall e.client w₁ with
  | (Except.error err, w₂) =>
    (Except.error err, w₂, [Call.containerWait step.uid, Call.containerInspect step.uid])
  | (Except.ok info, w₂) =>
    (Except.ok ⟨true, info.exitCode, info.oomKilled⟩, w₂,
      [Call.containerWait step.uid, Call.containerInspect step.uid])

/-- `Tail`: open the follow-mode log stream (the background demultiplexing
task and the returned pipe are not part of the call-trace model). -/
def Tail (e : dockerEngine) (step : Step) (w : World) :
    Option RTErr × World × List Call :=
  match logsCall e.client w with
  | (r, w') => (r, w', [Call.containerLogs step.uid])

/-- The container-cleanup loop of `Destroy`: kill (signal 9) then forcibly
remove every step's container, discarding both results. -/
def destroyContainers (e : dockerEngine) : List Step → World →
    World × List Call
  | [], w => (w, [])
  | s :: rest, w =>
    match containerKillCall e.client w with
    | (_, w₁) =>
      match containerRemoveCall e.client s.uid w₁ with
      | (_, w₂) =>
        match destroyContainers e rest w₂ with
        | (w₃, t) =>
          (w₃, Call.containerKill s.uid "9" :: Call.containerRemove s.uid :: t)

/-- The volume-cleanup loop of `Destroy`: skip volumes without `EmptyDir`,
remove the rest, stopping at (and returning) the first error. -/
def destroyVolumes (e : dockerEngine) : List Volume → World →
    Option RTErr × World × List Call
  | [], w => (none, w, [])
  | vol :: rest, w =>
    if vol.emptyDir = none then destroyVolumes e rest w
    else
      match volumeRemoveCall e.client vol.uid w with
      | (some err, w') => (some err, w', [Call.volumeRemove vol.uid])
      | (none, w') =>
        match destroyVolumes e rest w' with
        | (r, w'', t) => (r, w'', Call.volumeRemove vol.uid :: t)

/-- The volume phase of `Destroy` (skipped entirely when the spec has no
docker section). -/
def destroyVolumesPhase (e : dockerEngine) (w : World) :
    Option RTErr × World × List Call :=
  match e.spec.docker with
  | none => (none, w, [])
  | some d => destroyVolumes e d.volumes w

/-- `Destroy`: clean up all containers (results discarded), then the
ephemeral volumes (first error returned), then the network (its result
returned). -/
def Destroy (e : dockerEngine) (w : World) : Option RTErr × World × List Call :=
  match destroyContainers e e.spec.steps w with
  | (w₁, t₁) =>
    match destroyVolumesPhase e w₁ with
    | (some err, w₂, t₂) => (some err, w₂, t₁ ++ t₂)
    | (none, w₂, t₂) =>
      match networkRemoveCall e.client e.spec.uid w₂ with
      | (r, w₃) => (r, w₃, t₁ ++ t₂ ++ [Call.networkRemove e.spec.uid])

/-! ## Derived notions used by the statements -/

/-- The declared ephemeral volumes, in declaration order. -/
def ephemerals (spec : Spec) : List Volume :=
  match spec.docker with
  | none => []
  | some d => d.volumes.filter (fun v => v.emptyDir ≠ none)

/-- The file mounts of a step that resolve to a payload, paired with their
payloads, in order (unknown names contribute nothing). -/
def foundMounts (spec : Spec) : List FileMount → List (FileMount × SpecFile)
  | [] => []
  | m :: rest =>
    match LookupFile spec m.name with
    | none => foundMounts spec rest
    | some f => (m, f) :: foundMounts spec rest

/-- Is a call an image pull? -/
def isPullCall : Call → Bool
  | Call.imagePull _ => true
  | _ => false

/-- Is a call a container creation? -/
def isCreateCall : Call → Bool
  | Call.containerCreate _ => true
  | _ => false

/-- Is a call a volume creation or removal? -/
def isVolumeCall : Call → Bool
  | Call.volumeCreate _ _ _ => true
  | Call.volumeRemove _ => true
  | _ => false

/-- Number of pulls in a trace. -/
def countPulls (t : List Call) : Nat :=
  (t.filter isPullCall).length

/-- Number of container creations in a trace. -/
def countCreates (t : List Call) : Nat :=
  (t.filter isCreateCall).length

/-- The sequence of outcomes the volume removals of `Destroy` would meet
when issued in order from world `w` (the executed removals agree with this
sequence up to and including the first error). -/
def volRemoveSeq (c : Client) : List Volume → World → List (Option RTErr)
  | [], _ => []
  | v :: rest, w =>
    match volumeRemoveCall c v.uid w with
    | (r, w') => r :: volRemoveSeq c rest w'

/-- All volumes declared by the spec (ephemeral or not). -/
def declaredVolumes (spec : Spec) : List Volume :=
  match spec.docker with
  | none => []
  | some d => d.volumes

end Docker

/-! ## Concrete clients and worlds for closed instances -/

/-- A client on which every operation succeeds (inspection reports an
exited container). -/
def noopClient : Client where
  volumeCreateO := fun _ => none
  networkCreateO := fun _ => none
  pullO := fun _ => none
  createO := fun _ => none
  copyO := fun _ => none
  killO := fun _ => none
  containerRemoveO := fun _ => none
  volumeRemoveO := fun _ => none
  networkRemoveO := fun _ => none
  startO := fun _ => none
  inspectO := fun _ => Except.ok ⟨false, 0, false⟩
  logsO := fun _ => none

/-- The empty world at time zero. -/
def emptyWorld : World :=
  ⟨0, [], [], []⟩

/-- A one-step spec: step `s1` runs `alpine`, declares one ephemeral volume
`v1` and one external volume `v2`, and mounts payload `f1` plus one unknown
payload name. -/
def sampleSpec : Spec where
  uid := "n1"
  labels := []
  steps := [⟨"s1", some ⟨"alpine".data, PullPolicy.pullDefault⟩,
    [⟨"f1", "/p1", 420⟩, ⟨"missing", "/p2", 420⟩]⟩]
  docker := some ⟨[⟨"v1", some ()⟩, ⟨"v2", none⟩]⟩
  auths := []
  files := [⟨"f1", [1, 2, 3]⟩]

/-- The step of `sampleSpec`. -/
def sampleStep : Step :=
  ⟨"s1", some ⟨"alpine".data, PullPolicy.pullDefault⟩,
    [⟨"f1", "/p1", 420⟩, ⟨"missing", "/p2", 420⟩]⟩

/-- The world in which the resources of `sampleSpec` exist. -/
def sampleWorld : World :=
  ⟨0, ["v1"], ["n1"], ["s1"]⟩

/-- A spec declaring ephemeral volumes `v1`, `v3` around an external `v2`. -/
def setupSpec : Spec :=
  ⟨"n1", [], [], some ⟨[⟨"v1", some ()⟩, ⟨"v2", none⟩, ⟨"v3", some ()⟩]⟩, [], []⟩

/-- A client whose second volume creation fails. -/
def setupFailClient : Client :=
  { noopClient with
    volumeCreateO := fun t => if t = 1 then some (RTErr.generic 3) else none }

/-- A spec with one container step and one ephemeral volume, for the
destroy instances. -/
def destroySpec : Spec :=
  ⟨"n1", [], [⟨"s1", none, []⟩], some ⟨[⟨"v1", some ()⟩]⟩, [], []⟩

/-- The world in which the resources of `destroySpec` exist. -/
def destroyWorld : World :=
  ⟨0, ["v1"], ["n1"], ["s1"]⟩

/-- A client whose volume removals always fail. -/
def destroyFailClient : Client :=
  { noopClient with volumeRemoveO := fun _ => some (RTErr.generic 7) }

/-- A step pulling a pinned (non-latest) image. -/
def recStep : Step :=
  ⟨"s1", some ⟨"alpine:3.9".data, PullPolicy.pullDefault⟩, []⟩

/-- A client whose first container creation reports image-not-found and
whose recovery pull (the second call) fails. -/
def recClient : Client :=
  { noopClient with
    createO := fun t => if t = 0 then some RTErr.imageNotFound else none
    pullO := fun t => if t = 1 then some (RTErr.generic 5) else none }

/-- An engine around `recClient` with a minimal spec. -/
def recEngine : dockerEngine :=
  ⟨⟨"n1", [], [recStep], none, [], []⟩, recClient⟩

/-! # Theorems -/

/-! ## List lemmas for the break/split utilities -/

theorem breakAtFirst_eq_some {c : Char} :
    ∀ {s a b : List Char}, breakAtFirst c s = some (a, b) →
      s = a ++ c :: b ∧ c ∉ a := by
  intro s
  induction s with
  | nil => intro a b h; simp [breakAtFirst] at h
  | cons x xs ih =>
    intro a b h
    by_cases hx : x = c
    · rw [breakAtFirst, if_pos hx] at h
      injection h with h'
      rw [Prod.mk.injEq] at h'
      obtain ⟨rfl, rfl⟩ := h'
      simp [hx]
    · rw [breakAtFirst, if_neg hx] at h
      cases hr : breakAtFirst c xs with
      | none => rw [hr] at h; simp at h
      | some p =>
        rw [hr] at h
        simp only [Option.map] at h
        injection h with h'
        rw [Prod.mk.injEq] at h'
        obtain ⟨ha, hb⟩ := h'
        obtain ⟨hs, hm⟩ := ih (show breakAtFirst c xs = some (p.1, p.2) by rw [hr])
        subst ha
        subst hb
        constructor
        · rw [hs]; simp
        · intro hm2
          rcases List.mem_cons.mp hm2 with h' | h'
          · exact hx h'.symm
          · exact hm h'

theorem breakAtFirst_eq_none {c : Char} :
    ∀ {s : List Char}, breakAtFirst c s = none → c ∉ s := by
  intro s
  induction s with
  | nil => intro _; simp
  | cons x xs ih =>
    intro h
    by_cases hx : x = c
    · rw [breakAtFirst, if_pos hx] at h; simp at h
    · rw [breakAtFirst, if_neg hx] at h
      cases hr : breakAtFirst c xs with
      | none =>
        intro hm2
        rcases List.mem_cons.mp hm2 with h' | h'
        · exact hx h'.symm
        · exact ih hr h'
      | some p => rw [hr] at h; simp at h

theorem breakAtFirst_append_not_mem {c : Char} :
    ∀ {a : List Char} (b : List Char), c ∉ a →
      breakAtFirst c (a ++ c :: b) = some (a, b) := by
  intro a
  induction a with
  | nil => intro b _; simp [breakAtFirst]
  | cons x xs ih =>
    intro b h
    have hx : ¬ x = c := by
      intro hh; exact h (by simp [hh])
    have hr := ih b (fun hm => h (by simp [hm]))
    simp only [List.cons_append, breakAtFirst, if_neg hx, List.append_eq, hr, Option.map]

theorem breakAtLast_eq_some {c : Char} {s a b : List Char}
    (h : breakAtLast c s = some (a, b)) : s = a ++ c :: b ∧ c ∉ b := by
  unfold breakAtLast at h
  cases hr : breakAtFirst c s.reverse with
  | none => rw [hr] at h; simp at h
  | some p =>
    rw [hr] at h
    obtain ⟨h1, h2⟩ := breakAtFirst_eq_some (show breakAtFirst c s.reverse = some (p.1, p.2) by rw [hr])
    injection h with h'
    rw [Prod.mk.injEq] at h'
    obtain ⟨ha, hb⟩ := h'
    constructor
    · have hss : s.reverse.reverse = (p.1 ++ c :: p.2).reverse := by rw [h1]
      simp only [List.reverse_reverse, List.reverse_append, List.reverse_cons] at hss
      rw [hss, ← ha, ← hb]
      simp
    · rw [← hb]
      simp only [List.mem_reverse]
      exact h2

theorem breakAtLast_eq_none {c : Char} {s : List Char}
    (h : breakAtLast c s = none) : c ∉ s := by
  unfold breakAtLast at h
  cases hr : breakAtFirst c s.reverse with
  | none =>
    have := breakAtFirst_eq_none hr
    intro hm
    exact this (by simp [hm])
  | some p => rw [hr] at h; simp at h

theorem breakAtLast_append_not_mem {c : Char} {a b : List Char} (h : c ∉ b) :
    breakAtLast c (a ++ c :: b) = some (a, b) := by
  unfold breakAtLast
  have hrev : (a ++ c :: b).reverse = b.reverse ++ c :: a.reverse := by simp
  rw [hrev, breakAtFirst_append_not_mem a.reverse (by simp [h])]
  simp

theorem hasSuffixL_iff {s suf : List Char} :
    hasSuffixL s suf = true ↔ ∃ pre, s = pre ++ suf := by
  unfold hasSuffixL
  constructor
  · intro h
    refine ⟨s.take (s.length - suf.length), ?_⟩
    have hd : s.drop (s.length - suf.length) = suf := by
      simpa using h
    conv_lhs => rw [← List.take_append_drop (s.length - suf.length) s]
    rw [hd]
  · rintro ⟨pre, rfl⟩
    have hl : (pre ++ suf).length - suf.length = pre.length := by
      simp
    rw [hl]
    simp

/-! ## C6: concrete parser examples -/

/-- C6: `parseImage "alpine"` yields canonical
`docker.io/library/alpine:latest`, domain `docker.io`, latest = true;
`parseImage "alpine:3.9"` yields latest = false; the empty string and a
string with illegal characters are rejected as invalid references. -/
theorem parseImage_examples :
    parseImage "alpine".data =
      Except.ok ("docker.io/library/alpine:latest".data, "docker.io".data, true)
    ∧ parseImage "alpine:3.9".data =
      Except.ok ("docker.io/library/alpine:3.9".data, "docker.io".data, false)
    ∧ parseImage "".data = Except.error ParseErr.invalidFormat
    ∧ parseImage "alp!ne".data = Except.error ParseErr.invalidFormat := by
  refine ⟨by decide, by decide, by decide, by decide⟩

/-! ## Character-content lemmas for the reference grammar -/

theorem isSepRun_chars {r : List Char} (h : isSepRun r = true) :
    ∀ c ∈ r, c = '.' ∨ c = '_' ∨ c = '-' := by
  intro c hc
  unfold isSepRun at h
  simp only [Bool.or_eq_true, Bool.and_eq_true, beq_iff_eq, List.all_eq_true,
    decide_eq_true_eq] at h
  rcases h with ((rfl | rfl) | rfl) | ⟨-, h⟩
  · simp at hc; simp [hc]
  · simp at hc; simp [hc]
  · simp at hc; simp [hc]
  · exact Or.inr (Or.inr (h c hc))

theorem nonAlnumRuns_chars :
    ∀ (s acc : List Char), ((nonAlnumRuns acc s).all isSepRun = true) →
      ∀ c, (c ∈ s ∨ c ∈ acc) → isLowerAlnum c = false →
        (c = '.' ∨ c = '_' ∨ c = '-') := by
  intro s
  induction s with
  | nil =>
    intro acc h c hc hna
    rcases hc with hc | hc
    · simp at hc
    · unfold nonAlnumRuns at h
      by_cases hacc : acc = []
      · subst hacc; simp at hc
      · rw [if_neg hacc] at h
        simp only [List.all_cons, List.all_nil, Bool.and_true] at h
        exact isSepRun_chars h c (by simpa using hc)
  | cons x xs ih =>
    intro acc h c hc hna
    unfold nonAlnumRuns at h
    by_cases hx : isLowerAlnum x
    · rw [if_pos hx] at h
      by_cases hacc : acc = []
      · rw [if_pos hacc] at h
        rcases hc with hc | hc
        · rcases List.mem_cons.mp hc with rfl | hc'
          · rw [hx] at hna; cases hna
          · exact ih [] h c (Or.inl hc') hna
        · rw [hacc] at hc; simp at hc
      · rw [if_neg hacc] at h
        simp only [List.all_cons, Bool.and_eq_true] at h
        rcases hc with hc | hc
        · rcases List.mem_cons.mp hc with rfl | hc'
          · rw [hx] at hna; cases hna
          · exact ih [] h.2 c (Or.inl hc') hna
        · exact isSepRun_chars h.1 c (by simpa using hc)
    · rw [if_neg hx] at h
      rcases hc with hc | hc
      · rcases List.mem_cons.mp hc with rfl | hc'
        · exact ih (c :: acc) h c (Or.inr (by simp)) hna
        · exact ih (x :: acc) h c (Or.inl hc') hna
      · exact ih (x :: acc) h c (Or.inr (by simp [hc])) hna

theorem isPathComponent_chars {s : List Char} (h : isPathComponent s = true) :
    ∀ c ∈ s, isLowerAlnum c = true ∨ c = '.' ∨ c = '_' ∨ c = '-' := by
  intro c hc
  unfold isPathComponent at h
  simp only [Bool.and_eq_true] at h
  by_cases hna : isLowerAlnum c
  · exact Or.inl hna
  · exact Or.inr (nonAlnumRuns_chars s [] h.2 c (Or.inl hc) (by simpa using hna))

theorem splitOnChar_mem {sep : Char} :
    ∀ {s : List Char} {x : Char}, x ∈ s →
      x = sep ∨ ∃ part ∈ splitOnChar sep s, x ∈ part := by
  intro s
  induction s with
  | nil => intro x hx; simp at hx
  | cons y ys ih =>
    intro x hx
    rcases List.mem_cons.mp hx with rfl | hx'
    · by_cases hy : x = sep
      · exact Or.inl hy
      · right
        unfold splitOnChar
        rw [if_neg hy]
        cases hr : splitOnChar sep ys with
        | nil => exact ⟨[x], by simp⟩
        | cons hd tl => exact ⟨x :: hd, by simp⟩
    · rcases ih hx' with h | ⟨part, hpm, hxp⟩
      · exact Or.inl h
      · right
        unfold splitOnChar
        by_cases hy : y = sep
        · rw [if_pos hy]
          exact ⟨part, by simp [hpm], hxp⟩
        · rw [if_neg hy]
          cases hr : splitOnChar sep ys with
          | nil => rw [hr] at hpm; simp at hpm
          | cons hd tl =>
            rw [hr] at hpm
            rcases List.mem_cons.mp hpm with rfl | hpm'
            · exact ⟨y :: part, by simp, by simp [hxp]⟩
            · exact ⟨part, by simp [hpm'], hxp⟩

theorem isPathL_chars {s : List Char} (h : isPathL s = true) :
    ∀ c ∈ s, isLowerAlnum c = true ∨ c = '.' ∨ c = '_' ∨ c = '-' ∨ c = '/' := by
  intro c hc
  unfold isPathL at h
  rw [List.all_eq_true] at h
  rcases splitOnChar_mem hc with h' | ⟨part, hpm, hcp⟩
  · right; right; right; right; exact h'
  · rcases isPathComponent_chars (h part hpm) c hcp with h' | h' | h' | h'
    · exact Or.inl h'
    · exact Or.inr (Or.inl h')
    · exact Or.inr (Or.inr (Or.inl h'))
    · exact Or.inr (Or.inr (Or.inr (Or.inl h')))

theorem isPathL_no_colon {s : List Char} (h : isPathL s = true) : ':' ∉ s := by
  intro hm
  have := isPathL_chars h ':' hm
  revert this
  decide

theorem isPathL_no_at {s : List Char} (h : isPathL s = true) : '@' ∉ s := by
  intro hm
  have := isPathL_chars h '@' hm
  revert this
  decide

theorem isDomainComponent_chars {s : List Char} (h : isDomainComponent s = true) :
    ∀ c ∈ s, isAlnumAny c = true ∨ c = '-' := by
  intro c hc
  unfold isDomainComponent at h
  simp only [Bool.and_eq_true] at h
  have := h.2
  rw [List.all_eq_true] at this
  have := this c hc
  simpa using this

theorem isDomainL_chars {s : List Char} (h : isDomainL s = true) :
    ∀ c ∈ s, isAlnumAny c = true ∨ c = '-' ∨ c = '.' ∨ c = ':' := by
  intro c hc
  unfold isDomainL at h
  cases hb : breakAtFirst ':' s with
  | none =>
    rw [hb] at h
    rw [List.all_eq_true] at h
    rcases splitOnChar_mem hc with h' | ⟨part, hpm, hcp⟩
    · right; right; left; exact h'
    · rcases isDomainComponent_chars (h part hpm) c hcp with h' | h'
      · exact Or.inl h'
      · exact Or.inr (Or.inl h')
  | some p =>
    rw [hb] at h
    simp only [Bool.and_eq_true, List.all_eq_true] at h
    obtain ⟨⟨h1, -⟩, h3⟩ := h
    obtain ⟨hs, -⟩ := breakAtFirst_eq_some hb
    rw [hs] at hc
    rcases List.mem_append.mp hc with hc' | hc'
    · rcases splitOnChar_mem hc' with h' | ⟨part, hpm, hcp⟩
      · right; right; left; exact h'
      · rcases isDomainComponent_chars (h1 part hpm) c hcp with h' | h'
        · exact Or.inl h'
        · exact Or.inr (Or.inl h')
    · rcases List.mem_cons.mp hc' with rfl | hc''
      · right; right; right; rfl
      · left
        have hd := h3 c hc''
        unfold isAlnumAny isLowerAlnum
        unfold isDigitChar at hd
        simp only [Bool.or_eq_true]
        left; right; exact hd

theorem isDomainL_no_at {s : List Char} (h : isDomainL s = true) : '@' ∉ s := by
  intro hm
  have := isDomainL_chars h '@' hm
  revert this
  decide

theorem isTagL_chars {s : List Char} (h : isTagL s = true) :
    ∀ c ∈ s, isWordChar c = true ∨ c = '.' ∨ c = '-' := by
  intro c hc
  unfold isTagL at h
  cases s with
  | nil => simp at hc
  | cons x xs =>
    simp only [Bool.and_eq_true, List.all_eq_true] at h
    rcases List.mem_cons.mp hc with rfl | hc'
    · exact Or.inl h.1.1
    · have := h.2 c hc'
      simp only [Bool.or_eq_true, decide_eq_true_eq] at this
      tauto

theorem isTagL_no_colon {s : List Char} (h : isTagL s = true) : ':' ∉ s := by
  intro hm
  have := isTagL_chars h ':' hm
  revert this
  decide

theorem isTagL_no_at {s : List Char} (h : isTagL s = true) : '@' ∉ s := by
  intro hm
  have := isTagL_chars h '@' hm
  revert this
  decide

theorem isTagL_no_slash {s : List Char} (h : isTagL s = true) : '/' ∉ s := by
  intro hm
  have := isTagL_chars h '/' hm
  revert this
  decide

/-! ## Well-formedness of parsed references -/

theorem nameMatch_ok {n d p : List Char} (h : nameMatch n = some (d, p)) :
    isPathL p = true ∧ (d = [] ∨ isDomainL d = true) := by
  unfold nameMatch at h
  cases hb : breakAtFirst '/' n with
  | none =>
    rw [hb] at h
    by_cases hp : isPathL n
    · rw [if_pos hp] at h
      injection h with h'
      rw [Prod.mk.injEq] at h'
      obtain ⟨rfl, rfl⟩ := h'
      exact ⟨hp, Or.inl rfl⟩
    · rw [if_neg hp] at h; cases h
  | some q =>
    rw [hb] at h
    dsimp only at h
    by_cases h1 : isDomainL q.1 && isPathL q.2
    · rw [if_pos h1] at h
      injection h with h'
      rw [Prod.mk.injEq] at h'
      obtain ⟨rfl, rfl⟩ := h'
      simp only [Bool.and_eq_true] at h1
      exact ⟨h1.2, Or.inr h1.1⟩
    · rw [if_neg h1] at h
      by_cases hp : isPathL n
      · rw [if_pos hp] at h
        injection h with h'
        rw [Prod.mk.injEq] at h'
        obtain ⟨rfl, rfl⟩ := h'
        exact ⟨hp, Or.inl rfl⟩
      · rw [if_neg hp] at h; cases h

theorem matchRefFull_ok {t dom path tag dig : List Char}
    (h : matchRefFull t = some (dom, path, tag, dig)) :
    isPathL path = true ∧ (dom = [] ∨ isDomainL dom = true)
      ∧ (tag = [] ∨ isTagL tag = true) := by
  unfold matchRefFull at h
  cases hat : breakAtFirst '@' t with
  | none =>
    rw [hat] at h
    dsimp only at h
    simp only [Option.isSome_none, Bool.false_and, Bool.false_eq_true, if_false] at h
    cases hcl : breakAtLast ':' t with
    | none =>
      rw [hcl] at h
      cases hnm : nameMatch t with
      | none => rw [hnm] at h; cases h
      | some q =>
        rw [hnm] at h
        simp only [Option.map] at h
        injection h with h'
        rw [Prod.mk.injEq, Prod.mk.injEq, Prod.mk.injEq] at h'
        obtain ⟨rfl, rfl, rfl, rfl⟩ := h'
        obtain ⟨hp, hd⟩ := nameMatch_ok (show nameMatch t = some (q.1, q.2) by rw [hnm])
        exact ⟨hp, hd, Or.inl rfl⟩
    | some p =>
      rw [hcl] at h
      dsimp only at h
      by_cases hsl : p.2.contains '/'
      · rw [if_pos hsl] at h
        cases hnm : nameMatch t with
        | none => rw [hnm] at h; cases h
        | some q =>
          rw [hnm] at h
          simp only [Option.map] at h
          injection h with h'
          rw [Prod.mk.injEq, Prod.mk.injEq, Prod.mk.injEq] at h'
          obtain ⟨rfl, rfl, rfl, rfl⟩ := h'
          obtain ⟨hp, hd⟩ := nameMatch_ok (show nameMatch t = some (q.1, q.2) by rw [hnm])
          exact ⟨hp, hd, Or.inl rfl⟩
      · rw [if_neg hsl] at h
        by_cases htg : isTagL p.2
        · rw [if_pos htg] at h
          cases hnm : nameMatch p.1 with
          | none => rw [hnm] at h; cases h
          | some q =>
            rw [hnm] at h
            simp only [Option.map] at h
            injection h with h'
            rw [Prod.mk.injEq, Prod.mk.injEq, Prod.mk.injEq] at h'
            obtain ⟨rfl, rfl, rfl, rfl⟩ := h'
            obtain ⟨hp, hd⟩ := nameMatch_ok (show nameMatch p.1 = some (q.1, q.2) by rw [hnm])
            exact ⟨hp, hd, Or.inr htg⟩
        · rw [if_neg htg] at h; cases h
  | some pd =>
    rw [hat] at h
    dsimp only at h
    by_cases hg : isDigestGrammar pd.2
    · simp only [Option.isSome_some, Bool.true_and, hg, Bool.not_true,
        Bool.false_eq_true, if_false] at h
      cases hcl : breakAtLast ':' pd.1 with
      | none =>
        rw [hcl] at h
        cases hnm : nameMatch pd.1 with
        | none => rw [hnm] at h; cases h
        | some q =>
          rw [hnm] at h
          simp only [Option.map] at h
          injection h with h'
          rw [Prod.mk.injEq, Prod.mk.injEq, Prod.mk.injEq] at h'
          obtain ⟨rfl, rfl, rfl, rfl⟩ := h'
          obtain ⟨hp, hd⟩ := nameMatch_ok (show nameMatch pd.1 = some (q.1, q.2) by rw [hnm])
          exact ⟨hp, hd, Or.inl rfl⟩
      | some p =>
        rw [hcl] at h
        dsimp only at h
        by_cases hsl : p.2.contains '/'
        · rw [if_pos hsl] at h
          cases hnm : nameMatch pd.1 with
          | none => rw [hnm] at h; cases h
          | some q =>
            rw [hnm] at h
            simp only [Option.map] at h
            injection h with h'
            rw [Prod.mk.injEq, Prod.mk.injEq, Prod.mk.injEq] at h'
            obtain ⟨rfl, rfl, rfl, rfl⟩ := h'
            obtain ⟨hp, hd⟩ := nameMatch_ok (show nameMatch pd.1 = some (q.1, q.2) by rw [hnm])
            exact ⟨hp, hd, Or.inl rfl⟩
        · rw [if_neg hsl] at h
          by_cases htg : isTagL p.2
          · rw [if_pos htg] at h
            cases hnm : nameMatch p.1 with
            | none => rw [hnm] at h; cases h
            | some q =>
              rw [hnm] at h
              simp only [Option.map] at h
              injection h with h'
              rw [Prod.mk.injEq, Prod.mk.injEq, Prod.mk.injEq] at h'
              obtain ⟨rfl, rfl, rfl, rfl⟩ := h'
              obtain ⟨hp, hd⟩ := nameMatch_ok (show nameMatch p.1 = some (q.1, q.2) by rw [hnm])
              exact ⟨hp, hd, Or.inr htg⟩
          · rw [if_neg htg] at h; cases h
    · simp only [Option.isSome_some, Bool.true_and, hg, Bool.not_false, if_true] at h
      cases h

theorem parseRef_ok_wf {t : List Char} {r : NamedRef} (h : parseRef t = Except.ok r) :
    isPathL r.path = true ∧ (r.domain = [] ∨ isDomainL r.domain = true)
      ∧ (r.tag = [] ∨ isTagL r.tag = true)
      ∧ (r.digest = [] ∨ digestValidate r.digest = none) := by
  unfold parseRef at h
  cases hm : matchRefFull t with
  | none =>
    rw [hm] at h
    dsimp only at h
    split_ifs at h <;> cases h
  | some q =>
    obtain ⟨dom, path, tag, dig⟩ := q
    rw [hm] at h
    dsimp only at h
    obtain ⟨hp, hd, ht⟩ := matchRefFull_ok hm
    by_cases h1 : 255 < nameLength dom path
    · rw [if_pos h1] at h; cases h
    · rw [if_neg h1] at h
      by_cases h2 : dig.isEmpty
      · rw [if_pos h2] at h
        injection h with h'
        subst h'
        exact ⟨hp, hd, ht, Or.inl rfl⟩
      · rw [if_neg h2] at h
        cases hdv : digestValidate dig with
        | none =>
          rw [hdv] at h
          dsimp only at h
          injection h with h'
          subst h'
          exact ⟨hp, hd, ht, Or.inr hdv⟩
        | some e => rw [hdv] at h; dsimp only at h; cases h

theorem parseNormalizedNamed_ok_wf {s : List Char} {r : NamedRef}
    (h : parseNormalizedNamed s = Except.ok r) :
    isPathL r.path = true ∧ (r.domain = [] ∨ isDomainL r.domain = true)
      ∧ (r.tag = [] ∨ isTagL r.tag = true)
      ∧ (r.digest = [] ∨ digestValidate r.digest = none) := by
  unfold parseNormalizedNamed at h
  by_cases h1 : (s.length = 64 && s.all isHexLower) = true
  · rw [if_pos h1] at h; cases h
  · rw [if_neg h1] at h
    dsimp only at h
    by_cases h2 : ((match breakAtFirst ':' (splitDockerDomain s).2 with
        | none => (splitDockerDomain s).2
        | some q => q.1).any isUpperAlpha) = true
    · rw [if_pos h2] at h; cases h
    · rw [if_neg h2] at h
      exact parseRef_ok_wf h

/-! ## The canonical string's tag -/

theorem digestValidate_none_shape {d : List Char} (h : digestValidate d = none) :
    ∃ alg enc, d = alg ++ ':' :: enc ∧ enc ≠ [] ∧ enc.all isHexLower = true := by
  unfold digestValidate at h
  cases hb : breakAtFirst ':' d with
  | none => rw [hb] at h; cases h
  | some p =>
    rw [hb] at h
    dsimp only at h
    obtain ⟨hs, -⟩ := breakAtFirst_eq_some hb
    have key : p.2 ≠ [] ∧ p.2.all isHexLower = true := by
      by_cases h0 : (p.1.isEmpty || p.2.isEmpty) = true
      · rw [if_pos h0] at h; cases h
      · rw [if_neg h0] at h
        have hne : p.2 ≠ [] := by
          intro hh
          exact h0 (by simp [hh])
        by_cases hA : p.1 = "sha256".data
        · rw [if_pos hA] at h
          by_cases hC : (p.2.length = 64 && p.2.all isHexLower) = true
          · simp only [Bool.and_eq_true] at hC
            exact ⟨hne, hC.2⟩
          · rw [if_neg hC] at h; cases h
        · rw [if_neg hA] at h
          by_cases hB : p.1 = "sha384".data
          · rw [if_pos hB] at h
            by_cases hC : (p.2.length = 96 && p.2.all isHexLower) = true
            · simp only [Bool.and_eq_true] at hC
              exact ⟨hne, hC.2⟩
            · rw [if_neg hC] at h; cases h
          · rw [if_neg hB] at h
            by_cases hD : p.1 = "sha512".data
            · rw [if_pos hD] at h
              by_cases hC : (p.2.length = 128 && p.2.all isHexLower) = true
              · simp only [Bool.and_eq_true] at hC
                exact ⟨hne, hC.2⟩
              · rw [if_neg hC] at h; cases h
            · rw [if_neg hD] at h; cases h
    exact ⟨p.1, p.2, by rw [hs], key.1, key.2⟩

theorem isDomainL_ne_nil {s : List Char} (h : isDomainL s = true) : s ≠ [] := by
  intro hh
  rw [hh] at h
  exact absurd h (by decide)

theorem refName_no_at {r : NamedRef} (hp : isPathL r.path = true)
    (hd : r.domain = [] ∨ isDomainL r.domain = true) : '@' ∉ refName r := by
  unfold refName
  rcases hd with hd | hd
  · rw [hd]
    simp only [List.isEmpty_nil, if_true]
    exact isPathL_no_at hp
  · have hne : ¬ r.domain.isEmpty = true := by
      intro hh
      exact isDomainL_ne_nil hd (List.isEmpty_iff.mp hh)
    rw [if_neg hne]
    intro hm
    rcases List.mem_append.mp hm with hm' | hm'
    · exact isDomainL_no_at hd hm'
    · rcases List.mem_cons.mp hm' with h' | h'
      · exact absurd h' (by decide)
      · exact isPathL_no_at hp h'

theorem refName_colon_slash {r : NamedRef} (hp : isPathL r.path = true) :
    ∀ a b, refName r = a ++ ':' :: b → '/' ∈ b := by
  intro a b hab
  unfold refName at hab
  by_cases hde : r.domain.isEmpty = true
  · rw [if_pos hde] at hab
    have : ':' ∈ r.path := by rw [hab]; simp
    exact absurd this (isPathL_no_colon hp)
  · rw [if_neg hde] at hab
    rcases List.append_eq_append_iff.mp hab with ⟨w, hw1, hw2⟩ | ⟨w, hw1, hw2⟩
    · cases w with
      | nil =>
        simp only [List.nil_append] at hw2
        injection hw2 with h1 h2
        exact absurd h1 (by decide)
      | cons x w' =>
        simp only [List.cons_append] at hw2
        injection hw2 with h1 h2
        have : ':' ∈ r.path := by rw [h2]; simp
        exact absurd this (isPathL_no_colon hp)
    · cases w with
      | nil =>
        simp only [List.nil_append] at hw2
        injection hw2 with h1 h2
        exact absurd h1 (by decide)
      | cons x w' =>
        simp only [List.cons_append] at hw2
        injection hw2 with h1 h2
        rw [h2]
        simp

theorem tagNameOnly_path (r : NamedRef) : (tagNameOnly r).path = r.path := by
  unfold tagNameOnly; split <;> rfl

theorem tagNameOnly_domain (r : NamedRef) : (tagNameOnly r).domain = r.domain := by
  unfold tagNameOnly; split <;> rfl

theorem tagNameOnly_digest (r : NamedRef) : (tagNameOnly r).digest = r.digest := by
  unfold tagNameOnly; split <;> rfl

theorem tagNameOnly_tag_wf {r : NamedRef} (ht : r.tag = [] ∨ isTagL r.tag = true) :
    (tagNameOnly r).tag = [] ∨ isTagL (tagNameOnly r).tag = true := by
  unfold tagNameOnly
  split
  · right
    show isTagL "latest".data = true
    decide
  · exact ht

theorem tagNameOnly_tag_of_digest_nil {r : NamedRef} (h : r.digest = []) :
    (tagNameOnly r).tag ≠ [] := by
  unfold tagNameOnly
  by_cases ht : r.tag.isEmpty = true
  · rw [if_pos (by simp [ht, h])]
    intro hh
    exact absurd (show "latest".data = ([] : List Char) from hh) (by decide)
  · rw [if_neg (by simp [ht])]
    intro hh
    exact ht (by simp [hh])

theorem tagNameOnly_tag_default {r : NamedRef} (h : r.digest = []) (ht : r.tag = []) :
    (tagNameOnly r).tag = "latest".data := by
  unfold tagNameOnly
  rw [if_pos (by simp [h, ht])]

theorem refString_no_tag_no_digest {r : NamedRef} (h1 : r.tag = []) (h2 : r.digest = []) :
    refString r = refName r := by
  unfold refString
  have e1 : r.tag.isEmpty = true := by rw [h1]; rfl
  have e2 : r.digest.isEmpty = true := by rw [h2]; rfl
  rw [if_pos e1, if_pos e2, List.append_nil, List.append_nil]

theorem refString_tag_no_digest {r : NamedRef} (h1 : r.tag ≠ []) (h2 : r.digest = []) :
    refString r = refName r ++ ':' :: r.tag := by
  unfold refString
  have e1 : ¬ r.tag.isEmpty = true := fun hh => h1 (List.isEmpty_iff.mp hh)
  have e2 : r.digest.isEmpty = true := by rw [h2]; rfl
  rw [if_neg e1, if_pos e2, List.append_nil]

theorem refString_digest {r : NamedRef} (h : r.digest ≠ []) :
    refString r =
      (refName r ++ (if r.tag.isEmpty then [] else ':' :: r.tag)) ++ '@' :: r.digest := by
  unfold refString
  have e2 : ¬ r.digest.isEmpty = true := fun hh => h (List.isEmpty_iff.mp hh)
  rw [if_neg e2]

theorem tagPart_no_at {r : NamedRef} (ht : r.tag = [] ∨ isTagL r.tag = true) :
    '@' ∉ (if r.tag.isEmpty then ([] : List Char) else ':' :: r.tag) := by
  by_cases hte : r.tag.isEmpty = true
  · rw [if_pos hte]; simp
  · rw [if_neg hte]
    intro hm
    rcases List.mem_cons.mp hm with h' | h'
    · exact absurd h' (by decide)
    · rcases ht with ht0 | htg
      · exact hte (by rw [ht0]; rfl)
      · exact isTagL_no_at htg h'

theorem stringTag_no_tag {n : List Char} (hAt : '@' ∉ n)
    (hcs : ∀ a b, n = a ++ ':' :: b → '/' ∈ b) :
    stringTag n = [] := by
  unfold stringTag
  have hbf : breakAtFirst '@' n = none := by
    cases hb : breakAtFirst '@' n with
    | none => rfl
    | some p =>
      obtain ⟨hs, -⟩ := breakAtFirst_eq_some hb
      have hm : '@' ∈ n := by rw [hs]; simp
      exact absurd hm hAt
  rw [hbf]
  dsimp only
  cases hbl : breakAtLast ':' n with
  | none => rfl
  | some p =>
    dsimp only
    obtain ⟨hs, -⟩ := breakAtLast_eq_some hbl
    have hsl := hcs p.1 p.2 hs
    rw [if_pos (show p.2.contains '/' = true from List.elem_iff.mpr hsl)]

theorem stringTag_with_tag {n tg : List Char} (hAt : '@' ∉ n) (hAtTg : '@' ∉ tg)
    (hcol : ':' ∉ tg) (hsl : '/' ∉ tg) :
    stringTag (n ++ ':' :: tg) = tg := by
  unfold stringTag
  have hbf : breakAtFirst '@' (n ++ ':' :: tg) = none := by
    cases hb : breakAtFirst '@' (n ++ ':' :: tg) with
    | none => rfl
    | some p =>
      obtain ⟨hs, -⟩ := breakAtFirst_eq_some hb
      have hm : '@' ∈ n ++ ':' :: tg := by rw [hs]; simp
      rcases List.mem_append.mp hm with hm' | hm'
      · exact absurd hm' hAt
      · rcases List.mem_cons.mp hm' with h' | h'
        · exact absurd h' (by decide)
        · exact absurd h' hAtTg
  rw [hbf]
  dsimp only
  rw [breakAtLast_append_not_mem hcol]
  dsimp only
  rw [if_neg (show ¬ tg.contains '/' = true from fun hcon => hsl (List.elem_iff.mp hcon))]

theorem stringTag_append_digest {nt dg : List Char} (hAt : '@' ∉ nt) :
    stringTag (nt ++ '@' :: dg) = stringTag nt := by
  unfold stringTag
  rw [breakAtFirst_append_not_mem dg hAt]
  have hbf : breakAtFirst '@' nt = none := by
    cases hb : breakAtFirst '@' nt with
    | none => rfl
    | some p =>
      obtain ⟨hs, -⟩ := breakAtFirst_eq_some hb
      have hm : '@' ∈ nt := by rw [hs]; simp
      exact absurd hm hAt
  rw [hbf]

theorem stringTag_refString {r : NamedRef}
    (hp : isPathL r.path = true) (hd : r.domain = [] ∨ isDomainL r.domain = true)
    (ht : r.tag = [] ∨ isTagL r.tag = true)
    (hg : r.digest = [] ∨ digestValidate r.digest = none) :
    stringTag (refString r) = r.tag := by
  have hAtName : '@' ∉ refName r := refName_no_at hp hd
  by_cases hdg : r.digest = []
  · by_cases htnil : r.tag = []
    · rw [refString_no_tag_no_digest htnil hdg, htnil]
      exact stringTag_no_tag hAtName (refName_colon_slash hp)
    · have htg : isTagL r.tag = true := ht.resolve_left htnil
      rw [refString_tag_no_digest htnil hdg]
      exact stringTag_with_tag hAtName (isTagL_no_at htg) (isTagL_no_colon htg)
        (isTagL_no_slash htg)
  · have hAtNT : '@' ∉ refName r ++ (if r.tag.isEmpty then ([] : List Char) else ':' :: r.tag) := by
      intro hm
      rcases List.mem_append.mp hm with hm' | hm'
      · exact hAtName hm'
      · exact tagPart_no_at ht hm'
    rw [refString_digest hdg, stringTag_append_digest hAtNT]
    by_cases htnil : r.tag = []
    · have e1 : r.tag.isEmpty = true := by rw [htnil]; rfl
      rw [if_pos e1, List.append_nil, htnil]
      exact stringTag_no_tag hAtName (refName_colon_slash hp)
    · have htg : isTagL r.tag = true := ht.resolve_left htnil
      have e1 : ¬ r.tag.isEmpty = true := fun hh => htnil (List.isEmpty_iff.mp hh)
      rw [if_neg e1]
      exact stringTag_with_tag hAtName (isTagL_no_at htg) (isTagL_no_colon htg)
        (isTagL_no_slash htg)

theorem refString_latest_iff {r : NamedRef}
    (hp : isPathL r.path = true) (hd : r.domain = [] ∨ isDomainL r.domain = true)
    (ht : r.tag = [] ∨ isTagL r.tag = true)
    (hg : r.digest = [] ∨ digestValidate r.digest = none) :
    hasSuffixL (refString r) (':' :: "latest".data) = true ↔
      (r.digest = [] ∧ r.tag = "latest".data) := by
  rw [hasSuffixL_iff]
  constructor
  · rintro ⟨pre, hpre⟩
    by_cases hdg : r.digest = []
    · refine ⟨hdg, ?_⟩
      by_cases htnil : r.tag = []
      · exfalso
        rw [refString_no_tag_no_digest htnil hdg] at hpre
        have := refName_colon_slash hp pre "latest".data hpre
        exact absurd this (by decide)
      · have htg : isTagL r.tag = true := ht.resolve_left htnil
        have h1 := breakAtLast_append_not_mem (a := refName r) (isTagL_no_colon htg)
        have h2 := breakAtLast_append_not_mem (a := pre)
          (show ':' ∉ "latest".data by decide)
        rw [← refString_tag_no_digest htnil hdg] at h1
        rw [← hpre] at h2
        rw [h1] at h2
        injection h2 with h'
        rw [Prod.mk.injEq] at h'
        exact h'.2
    · exfalso
      have hgv := hg.resolve_left hdg
      obtain ⟨alg, enc, hdig, hne, hhex⟩ := digestValidate_none_shape hgv
      have hL1 : (refString r).getLast? = some 't' := by
        rw [hpre, List.getLast?_append]
        have hx : (':' :: "latest".data).getLast? = some 't' := by decide
        rw [hx]
        rfl
      have hL2 : (refString r).getLast? = enc.getLast? := by
        rw [refString_digest hdg, hdig]
        have hassoc :
            (refName r ++ (if r.tag.isEmpty then ([] : List Char) else ':' :: r.tag))
              ++ '@' :: (alg ++ ':' :: enc)
            = ((refName r ++ (if r.tag.isEmpty then ([] : List Char) else ':' :: r.tag))
              ++ ('@' :: alg) ++ [':']) ++ enc := by
          simp
        rw [hassoc, List.getLast?_append]
        obtain ⟨a, ha⟩ : ∃ a, enc.getLast? = some a := by
          cases henc : enc with
          | nil => exact absurd henc hne
          | cons x xs => exact ⟨xs.getLast?.getD x, List.getLast?_cons⟩
        rw [ha]
        rfl
      rw [hL1] at hL2
      have hmem : 't' ∈ enc :=
        List.mem_of_mem_getLast? (show 't' ∈ enc.getLast? from Option.mem_def.mpr hL2.symm)
      exact absurd (List.all_eq_true.mp hhex 't' hmem) (by decide)
  · rintro ⟨hg0, htag⟩
    refine ⟨refName r, ?_⟩
    have htne : r.tag ≠ [] := by rw [htag]; decide
    rw [refString_tag_no_digest htne hg0, htag]

theorem refString_at_iff {r : NamedRef}
    (hp : isPathL r.path = true) (hd : r.domain = [] ∨ isDomainL r.domain = true)
    (ht : r.tag = [] ∨ isTagL r.tag = true) :
    '@' ∈ refString r ↔ r.digest ≠ [] := by
  constructor
  · intro hm hdg
    by_cases htnil : r.tag = []
    · rw [refString_no_tag_no_digest htnil hdg] at hm
      exact refName_no_at hp hd hm
    · have htg : isTagL r.tag = true := ht.resolve_left htnil
      rw [refString_tag_no_digest htnil hdg] at hm
      rcases List.mem_append.mp hm with hm' | hm'
      · exact refName_no_at hp hd hm'
      · rcases List.mem_cons.mp hm' with h' | h'
        · exact absurd h' (by decide)
        · exact isTagL_no_at htg h'
  · intro hdg
    rw [refString_digest hdg]
    simp

/-! ## C5: the forced tag and the usesLatestTag flag -/

/-- C5 (amended): for every image reference string accepted by the parser,
`parseImage` forces an explicit tag (defaulting to `latest`) onto the
normalized reference when none was given, provided the reference also
carries no digest; and the returned `usesLatestTag` flag is true iff the
resulting canonical string's tag is exactly `latest` and the canonical
string carries no digest part.  (The two digest provisos are forced by the
counterexample: a digested reference gets no default tag, and the
`HasSuffix ":latest"` test is defeated by a trailing digest.) -/
theorem parseImage_tag_latest_spec (s c d : List Char) (l : Bool) (r₀ : NamedRef)
    (h : parseImage s = Except.ok (c, d, l))
    (h₀ : parseNormalizedNamed s = Except.ok r₀) :
    (r₀.digest = [] → stringTag c ≠ [])
    ∧ (r₀.digest = [] → r₀.tag = [] → stringTag c = "latest".data)
    ∧ (l = true ↔ (stringTag c = "latest".data ∧ '@' ∉ c)) := by
  unfold parseImage at h
  rw [h₀] at h
  dsimp only at h
  injection h with h'
  rw [Prod.mk.injEq, Prod.mk.injEq] at h'
  obtain ⟨hc, hd2, hl⟩ := h'
  obtain ⟨hp, hdm, ht, hg⟩ := parseNormalizedNamed_ok_wf h₀
  have hp' : isPathL (tagNameOnly r₀).path = true := by
    rw [tagNameOnly_path]; exact hp
  have hd' : (tagNameOnly r₀).domain = [] ∨ isDomainL (tagNameOnly r₀).domain = true := by
    rw [tagNameOnly_domain]; exact hdm
  have ht' := tagNameOnly_tag_wf ht
  have hg' : (tagNameOnly r₀).digest = [] ∨ digestValidate (tagNameOnly r₀).digest = none := by
    rw [tagNameOnly_digest]; exact hg
  have hst : stringTag c = (tagNameOnly r₀).tag := by
    rw [← hc]; exact stringTag_refString hp' hd' ht' hg'
  refine ⟨?_, ?_, ?_⟩
  · intro hdg
    rw [hst]
    exact tagNameOnly_tag_of_digest_nil hdg
  · intro hdg htag
    rw [hst]
    exact tagNameOnly_tag_default hdg htag
  · rw [← hl, refString_latest_iff hp' hd' ht' hg', hst]
    have hat : '@' ∈ c ↔ (tagNameOnly r₀).digest ≠ [] := by
      rw [← hc]; exact refString_at_iff hp' hd' ht'
    constructor
    · rintro ⟨h1, h2⟩
      exact ⟨h2, fun hm => (hat.mp hm) h1⟩
    · rintro ⟨h1, h2⟩
      refine ⟨?_, h1⟩
      by_contra hne
      exact h2 (hat.mpr hne)

/-- Closed instance of `parseImage_tag_latest_spec` at the input `alpine`. -/
theorem parseImage_tag_latest_spec_witness :
    stringTag "docker.io/library/alpine:latest".data ≠ []
    ∧ stringTag "docker.io/library/alpine:latest".data = "latest".data
    ∧ (true = true ↔ (stringTag "docker.io/library/alpine:latest".data = "latest".data
        ∧ '@' ∉ "docker.io/library/alpine:latest".data)) := by
  have h := parseImage_tag_latest_spec "alpine".data
    "docker.io/library/alpine:latest".data "docker.io".data true
    ⟨"docker.io".data, "library/alpine".data, [], []⟩ (by decide) (by decide)
  exact ⟨h.1 rfl, h.2.1 rfl rfl, h.2.2⟩

/-- C5 counterexample: on `alpine@sha256:<64 hex>` the parser accepts the
reference with no tag given, yet the canonical string is left without any
tag — no default tag is forced; and on `alpine:latest@sha256:<64 hex>` the
canonical string's tag is exactly `latest`, yet `usesLatestTag` is false.
Both refute the claim as stated. -/
theorem parseImage_digest_counterexample :
    parseNormalizedNamed
        "alpine@sha256:aaaaaaaaaaaaaaaaaaaaaaaaaaaaaaaaaaaaaaaaaaaaaaaaaaaaaaaaaaaaaaaa".data
      = Except.ok ⟨"docker.io".data, "library/alpine".data, [],
          "sha256:aaaaaaaaaaaaaaaaaaaaaaaaaaaaaaaaaaaaaaaaaaaaaaaaaaaaaaaaaaaaaaaa".data⟩
    ∧ parseImage
        "alpine@sha256:aaaaaaaaaaaaaaaaaaaaaaaaaaaaaaaaaaaaaaaaaaaaaaaaaaaaaaaaaaaaaaaa".data
      = Except.ok
          ("docker.io/library/alpine@sha256:aaaaaaaaaaaaaaaaaaaaaaaaaaaaaaaaaaaaaaaaaaaaaaaaaaaaaaaaaaaaaaaa".data,
           "docker.io".data, false)
    ∧ stringTag
        "docker.io/library/alpine@sha256:aaaaaaaaaaaaaaaaaaaaaaaaaaaaaaaaaaaaaaaaaaaaaaaaaaaaaaaaaaaaaaaa".data
      = []
    ∧ parseImage
        "alpine:latest@sha256:aaaaaaaaaaaaaaaaaaaaaaaaaaaaaaaaaaaaaaaaaaaaaaaaaaaaaaaaaaaaaaaa".data
      = Except.ok
          ("docker.io/library/alpine:latest@sha256:aaaaaaaaaaaaaaaaaaaaaaaaaaaaaaaaaaaaaaaaaaaaaaaaaaaaaaaaaaaaaaaa".data,
           "docker.io".data, false)
    ∧ stringTag
        "docker.io/library/alpine:latest@sha256:aaaaaaaaaaaaaaaaaaaaaaaaaaaaaaaaaaaaaaaaaaaaaaaaaaaaaaaaaaaaaaaa".data
      = "latest".data := by
  exact ⟨rfl, rfl, rfl, rfl, rfl⟩

open Docker

/-! ## C10: Wait -/

/-- C10: `Wait` returns an error iff the container-inspect call issued
after the wait resolves returns an error; the value delivered on either
`ContainerWait` channel only unblocks the wait and never affects the
result; and every successful `Wait` reports `exited = true` with the
inspected exit code and OOM flag — for every inspected state, including
one that still reports the container running. -/
theorem wait_inspect_spec (e : dockerEngine) (step : Step) (sig : WaitSignal)
    (w : World) :
    (∀ err, (Docker.Wait e step sig w).1 = Except.error err ↔
      e.client.inspectO (w.time + 1) = Except.error err)
    ∧ (∀ sig2, Docker.Wait e step sig w = Docker.Wait e step sig2 w)
    ∧ (∀ info, e.client.inspectO (w.time + 1) = Except.ok info →
        (Docker.Wait e step sig w).1 =
          Except.ok ⟨true, info.exitCode, info.oomKilled⟩) := by
  refine ⟨?_, ?_, ?_⟩
  · intro err
    unfold Docker.Wait inspectCall tick
    dsimp only
    cases hi : e.client.inspectO (w.time + 1) with
    | error e2 =>
      dsimp only
      constructor
      · intro hh
        injection hh with hh'
        rw [hh']
      · intro hh
        injection hh with hh'
        rw [hh']
    | ok info =>
      dsimp only
      constructor
      · intro hh; cases hh
      · intro hh; cases hh
  · intro sig2
    unfold Docker.Wait
    rfl
  · intro info hi
    unfold Docker.Wait inspectCall tick
    dsimp only
    rw [hi]

/-- Closed instance of `wait_inspect_spec`: inspection reporting a running
container with exit code 3 still yields `exited = true`. -/
theorem wait_inspect_spec_witness :
    (Docker.Wait ⟨sampleSpec, { noopClient with
        inspectO := fun _ => Except.ok ⟨true, 3, false⟩ }⟩
      sampleStep (WaitSignal.errc (RTErr.generic 9)) emptyWorld).1 =
      Except.ok ⟨true, 3, false⟩ := by
  exact (wait_inspect_spec ⟨sampleSpec, { noopClient with
      inspectO := fun _ => Except.ok ⟨true, 3, false⟩ }⟩
    sampleStep (WaitSignal.errc (RTErr.generic 9)) emptyWorld).2.2 ⟨true, 3, false⟩ rfl

/-! ## C9: idempotence of Destroy -/

theorem containerRemoveCall_world (c : Client) (n : String) (w : World) :
    (containerRemoveCall c n w).2.volumes = w.volumes ∧
    (containerRemoveCall c n w).2.networks = w.networks := by
  unfold containerRemoveCall
  by_cases hm : n ∈ w.containers
  · rw [if_pos hm]
    cases hr : c.containerRemoveO w.time with
    | none => exact ⟨rfl, rfl⟩
    | some e2 => exact ⟨rfl, rfl⟩
  · rw [if_neg hm]; exact ⟨rfl, rfl⟩

theorem destroyContainers_world (e : dockerEngine) :
    ∀ (ss : List Step) (w : World),
      (destroyContainers e ss w).1.volumes = w.volumes ∧
      (destroyContainers e ss w).1.networks = w.networks := by
  intro ss
  induction ss with
  | nil => intro w; exact ⟨rfl, rfl⟩
  | cons s rest ih =>
    intro w
    unfold destroyContainers containerKillCall
    dsimp only
    cases hrc : containerRemoveCall e.client s.uid (tick w) with
    | mk r w₂ =>
      cases hdc : destroyContainers e rest w₂ with
      | mk w₃ t =>
        dsimp only
        have h1 := containerRemoveCall_world e.client s.uid (tick w)
        rw [hrc] at h1
        have h2 := ih w₂
        rw [hdc] at h2
        constructor
        · rw [h2.1, h1.1]; rfl
        · rw [h2.2, h1.2]; rfl

theorem volumeRemoveCall_networks (c : Client) (n : String) (w : World) :
    (volumeRemoveCall c n w).2.networks = w.networks := by
  unfold volumeRemoveCall
  by_cases hm : n ∈ w.volumes
  · rw [if_pos hm]
    cases hr : c.volumeRemoveO w.time with
    | none => rfl
    | some e2 => rfl
  · rw [if_neg hm]; rfl

theorem volumeRemoveCall_mem {c : Client} {n : String} {w : World} {x : String}
    (h : x ∈ (volumeRemoveCall c n w).2.volumes) : x ∈ w.volumes := by
  unfold volumeRemoveCall at h
  by_cases hm : n ∈ w.volumes
  · rw [if_pos hm] at h
    cases hr : c.volumeRemoveO w.time with
    | none =>
      rw [hr] at h
      dsimp only at h
      exact (List.mem_filter.mp h).1
    | some e2 => rw [hr] at h; exact h
  · rw [if_neg hm] at h; exact h

theorem volumeRemoveCall_success {c : Client} {n : String} {w : World}
    (h : (volumeRemoveCall c n w).1 = none) :
    n ∉ (volumeRemoveCall c n w).2.volumes := by
  unfold volumeRemoveCall at h ⊢
  by_cases hm : n ∈ w.volumes
  · rw [if_pos hm] at h ⊢
    cases hr : c.volumeRemoveO w.time with
    | none =>
      dsimp only
      intro hx
      have := (List.mem_filter.mp hx).2
      simp at this
    | some e2 => rw [hr] at h; cases h
  · rw [if_neg hm]; exact hm

theorem volumeRemoveCall_absent {c : Client} {n : String} {w : World}
    (h : n ∉ w.volumes) :
    (volumeRemoveCall c n w).1 = none ∧
    (volumeRemoveCall c n w).2.volumes = w.volumes := by
  unfold volumeRemoveCall
  rw [if_neg h]
  exact ⟨rfl, rfl⟩

theorem networkRemoveCall_volumes (c : Client) (n : String) (w : World) :
    (networkRemoveCall c n w).2.volumes = w.volumes := by
  unfold networkRemoveCall
  by_cases hm : n ∈ w.networks
  · rw [if_pos hm]
    cases hr : c.networkRemoveO w.time with
    | none => rfl
    | some e2 => rfl
  · rw [if_neg hm]; rfl

theorem networkRemoveCall_success {c : Client} {n : String} {w : World}
    (h : (networkRemoveCall c n w).1 = none) :
    n ∉ (networkRemoveCall c n w).2.networks := by
  unfold networkRemoveCall at h ⊢
  by_cases hm : n ∈ w.networks
  · rw [if_pos hm] at h ⊢
    cases hr : c.networkRemoveO w.time with
    | none =>
      dsimp only
      intro hx
      have := (List.mem_filter.mp hx).2
      simp at this
    | some e2 => rw [hr] at h; cases h
  · rw [if_neg hm]; exact hm

theorem networkRemoveCall_absent {c : Client} {n : String} {w : World}
    (h : n ∉ w.networks) : (networkRemoveCall c n w).1 = none := by
  unfold networkRemoveCall
  rw [if_neg h]

theorem destroyVolumes_networks (e : dockerEngine) :
    ∀ (vols : List Volume) (w : World),
      (destroyVolumes e vols w).2.1.networks = w.networks := by
  intro vols
  induction vols with
  | nil => intro w; rfl
  | cons v rest ih =>
    intro w
    unfold destroyVolumes
    by_cases hskip : v.emptyDir = none
    · rw [if_pos hskip]; exact ih w
    · rw [if_neg hskip]
      cases hv : volumeRemoveCall e.client v.uid w with
      | mk r w' =>
        cases r with
        | some e2 =>
          dsimp only
          have := volumeRemoveCall_networks e.client v.uid w
          rw [hv] at this
          exact this
        | none =>
          dsimp only
          cases hrec : destroyVolumes e rest w' with
          | mk r2 q =>
            dsimp only
            have h1 := volumeRemoveCall_networks e.client v.uid w
            rw [hv] at h1
            have h2 := ih w'
            rw [hrec] at h2
            rw [h2, h1]

theorem destroyVolumes_mem (e : dockerEngine) :
    ∀ (vols : List Volume) (w : World) (x : String),
      x ∈ (destroyVolumes e vols w).2.1.volumes → x ∈ w.volumes := by
  intro vols
  induction vols with
  | nil => intro w x h; exact h
  | cons v rest ih =>
    intro w x h
    unfold destroyVolumes at h
    by_cases hskip : v.emptyDir = none
    · rw [if_pos hskip] at h; exact ih w x h
    · rw [if_neg hskip] at h
      cases hv : volumeRemoveCall e.client v.uid w with
      | mk r w' =>
        rw [hv] at h
        cases r with
        | some e2 =>
          dsimp only at h
          have := volumeRemoveCall_mem (show x ∈ (volumeRemoveCall e.client v.uid w).2.volumes by rw [hv]; exact h)
          exact this
        | none =>
          dsimp only at h
          cases hrec : destroyVolumes e rest w' with
          | mk r2 q =>
            rw [hrec] at h
            dsimp only at h
            have h2 := ih w' x (by rw [hrec]; exact h)
            exact volumeRemoveCall_mem (show x ∈ (volumeRemoveCall e.client v.uid w).2.volumes by rw [hv]; exact h2)

theorem destroyVolumes_success_removes (e : dockerEngine) :
    ∀ (vols : List Volume) (w : World),
      (destroyVolumes e vols w).1 = none →
      ∀ v ∈ vols, v.emptyDir ≠ none →
        v.uid ∉ (destroyVolumes e vols w).2.1.volumes := by
  intro vols
  induction vols with
  | nil => intro w _ v hv; simp at hv
  | cons v0 rest ih =>
    intro w hok v hv hve
    unfold destroyVolumes at hok ⊢
    by_cases hskip : v0.emptyDir = none
    · rw [if_pos hskip] at hok ⊢
      rcases List.mem_cons.mp hv with rfl | hv'
      · exact absurd hskip hve
      · exact ih w hok v hv' hve
    · rw [if_neg hskip] at hok ⊢
      cases hvc : volumeRemoveCall e.client v0.uid w with
      | mk r w' =>
        rw [hvc] at hok
        cases r with
        | some e2 => dsimp only at hok; cases hok
        | none =>
          dsimp only at hok ⊢
          rcases List.mem_cons.mp hv with rfl | hv'
          · intro hx
            have hx' : v.uid ∈ w'.volumes := destroyVolumes_mem e rest w' v.uid hx
            have := volumeRemoveCall_success
              (show (volumeRemoveCall e.client v.uid w).1 = none by rw [hvc])
            rw [hvc] at this
            exact this hx'
          · exact ih w' hok v hv' hve

theorem destroyVolumes_of_absent (e : dockerEngine) :
    ∀ (vols : List Volume) (w : World),
      (∀ v ∈ vols, v.emptyDir ≠ none → v.uid ∉ w.volumes) →
      (destroyVolumes e vols w).1 = none ∧
      (destroyVolumes e vols w).2.1.volumes = w.volumes := by
  intro vols
  induction vols with
  | nil => intro w _; exact ⟨rfl, rfl⟩
  | cons v0 rest ih =>
    intro w habs
    unfold destroyVolumes
    by_cases hskip : v0.emptyDir = none
    · rw [if_pos hskip]
      exact ih w (fun v hv hve => habs v (List.mem_cons_of_mem v0 hv) hve)
    · rw [if_neg hskip]
      have habs0 : v0.uid ∉ w.volumes := habs v0 (List.mem_cons_self v0 rest) hskip
      cases hvc : volumeRemoveCall e.client v0.uid w with
      | mk r w' =>
        have habs' := volumeRemoveCall_absent (c := e.client) habs0
        rw [hvc] at habs'
        obtain ⟨hr, hvols⟩ := habs'
        dsimp only at hr hvols
        cases r with
        | some e2 => cases hr
        | none =>
          dsimp only
          cases hrec : destroyVolumes e rest w' with
          | mk r2 q =>
            dsimp only
            have := ih w' (by
              rw [hvols]
              exact fun v hv hve => habs v (List.mem_cons_of_mem v0 hv) hve)
            rw [hrec] at this
            exact ⟨this.1, by rw [this.2, hvols]⟩

theorem destroyVolumesPhase_networks (e : dockerEngine) (w : World) :
    (destroyVolumesPhase e w).2.1.networks = w.networks := by
  unfold destroyVolumesPhase
  cases hd : e.spec.docker with
  | none => rfl
  | some d => exact destroyVolumes_networks e d.volumes w

theorem destroyVolumesPhase_success_removes (e : dockerEngine) (w : World)
    (h : (destroyVolumesPhase e w).1 = none) :
    ∀ v ∈ declaredVolumes e.spec, v.emptyDir ≠ none →
      v.uid ∉ (destroyVolumesPhase e w).2.1.volumes := by
  unfold destroyVolumesPhase at h ⊢
  unfold declaredVolumes
  cases hd : e.spec.docker with
  | none => intro v hv; simp at hv
  | some d =>
    rw [hd] at h
    exact destroyVolumes_success_removes e d.volumes w h

theorem destroyVolumesPhase_of_absent (e : dockerEngine) (w : World)
    (h : ∀ v ∈ declaredVolumes e.spec, v.emptyDir ≠ none → v.uid ∉ w.volumes) :
    (destroyVolumesPhase e w).1 = none ∧
    (destroyVolumesPhase e w).2.1.volumes = w.volumes := by
  unfold destroyVolumesPhase
  unfold declaredVolumes at h
  cases hd : e.spec.docker with
  | none => exact ⟨rfl, rfl⟩
  | some d =>
    rw [hd] at h
    exact destroyVolumes_of_absent e d.volumes w h

/-- C9: Destroy is idempotent under the cleanup contract (removal of an
absent resource succeeds): if a `Destroy` returns no error then an
immediately following `Destroy` on the resulting world also returns no
error. -/
theorem destroy_idempotent (e : dockerEngine) (w w₁ : World) (t₁ : List Call)
    (h : Destroy e w = (none, w₁, t₁)) :
    (Destroy e w₁).1 = none := by
  unfold Destroy at h
  cases hdc : destroyContainers e e.spec.steps w with
  | mk wA tA =>
    rw [hdc] at h
    dsimp only at h
    cases hph : destroyVolumesPhase e wA with
    | mk r q =>
      rw [hph] at h
      cases r with
      | some err => dsimp only at h; injection h with h1; cases h1
      | none =>
        dsimp only at h
        cases hnr : networkRemoveCall e.client e.spec.uid q.1 with
        | mk rn wn =>
          rw [hnr] at h
          dsimp only at h
          injection h with h1 h2
          injection h2 with h2 h3
          subst h1
          subst h2
          -- facts about w₁ = wn
          have hnet : e.spec.uid ∉ wn.networks := by
            have := networkRemoveCall_success
              (show (networkRemoveCall e.client e.spec.uid q.1).1 = none by rw [hnr])
            rw [hnr] at this
            exact this
          have hvolswn : wn.volumes = q.1.volumes := by
            have := networkRemoveCall_volumes e.client e.spec.uid q.1
            rw [hnr] at this
            exact this
          have hvrem : ∀ v ∈ declaredVolumes e.spec, v.emptyDir ≠ none →
              v.uid ∉ wn.volumes := by
            intro v hv hve
            rw [hvolswn]
            have := destroyVolumesPhase_success_removes e wA (by rw [hph]) v hv hve
            rw [hph] at this
            exact this
          -- second run
          unfold Destroy
          cases hdc2 : destroyContainers e e.spec.steps wn with
          | mk wB tB =>
            dsimp only
            have hwB := destroyContainers_world e e.spec.steps wn
            rw [hdc2] at hwB
            have habs : ∀ v ∈ declaredVolumes e.spec, v.emptyDir ≠ none →
                v.uid ∉ wB.volumes := by
              intro v hv hve
              rw [hwB.1]
              exact hvrem v hv hve
            obtain ⟨hph2ok, hph2vols⟩ := destroyVolumesPhase_of_absent e wB habs
            cases hph2 : destroyVolumesPhase e wB with
            | mk r2 q2 =>
              rw [hph2] at hph2ok hph2vols
              cases r2 with
              | some err2 => cases hph2ok
              | none =>
                dsimp only
                have hnets2 : q2.1.networks = wB.networks := by
                  have := destroyVolumesPhase_networks e wB
                  rw [hph2] at this
                  exact this
                have hnetabs : e.spec.uid ∉ q2.1.networks := by
                  rw [hnets2, hwB.2]
                  exact hnet
                exact networkRemoveCall_absent (c := e.client) hnetabs

/-- Closed instance of `destroy_idempotent` on a concrete world holding
the resources of `sampleSpec`. -/
theorem destroy_idempotent_witness :
    (Destroy ⟨sampleSpec, noopClient⟩ (Destroy ⟨sampleSpec, noopClient⟩ sampleWorld).2.1).1
      = none := by
  exact destroy_idempotent ⟨sampleSpec, noopClient⟩ sampleWorld
    (Destroy ⟨sampleSpec, noopClient⟩ sampleWorld).2.1
    (Destroy ⟨sampleSpec, noopClient⟩ sampleWorld).2.2 (by
      show Destroy ⟨sampleSpec, noopClient⟩ sampleWorld =
        (none, (Destroy ⟨sampleSpec, noopClient⟩ sampleWorld).2.1,
          (Destroy ⟨sampleSpec, noopClient⟩ sampleWorld).2.2)
      have : (Destroy ⟨sampleSpec, noopClient⟩ sampleWorld).1 = none := by decide
      rw [← this])

/-! ## Reduction lemmas for Create -/

theorem create_eq_pullfail (e : dockerEngine) (step : Step) (sd : StepDocker)
    (w : World) {can dom : List Char} {latest : Bool} {pe : RTErr}
    (hd : step.docker = some sd)
    (hp : parseImage sd.image = Except.ok (can, dom, latest))
    (hP : prePullCond sd latest = true)
    (hpull : e.client.pullO w.time = some pe) :
    Create e step w = (some (CreateErr.rt pe), tick w, [Call.imagePull sd.image]) := by
  unfold Create
  rw [hd]
  dsimp only
  rw [hp]
  dsimp only
  rw [if_pos hP]
  unfold imagePullCall
  rw [hpull]

theorem create_eq_rest_pre (e : dockerEngine) (step : Step) (sd : StepDocker)
    (w : World) {can dom : List Char} {latest : Bool}
    (hd : step.docker = some sd)
    (hp : parseImage sd.image = Except.ok (can, dom, latest))
    (hP : prePullCond sd latest = true)
    (hpull : e.client.pullO w.time = none) :
    Create e step w = createRest e step sd (tick w) [Call.imagePull sd.image] := by
  unfold Create
  rw [hd]
  dsimp only
  rw [hp]
  dsimp only
  rw [if_pos hP]
  unfold imagePullCall
  rw [hpull]

theorem create_eq_rest_nopre (e : dockerEngine) (step : Step) (sd : StepDocker)
    (w : World) {can dom : List Char} {latest : Bool}
    (hd : step.docker = some sd)
    (hp : parseImage sd.image = Except.ok (can, dom, latest))
    (hP : prePullCond sd latest = false) :
    Create e step w = createRest e step sd w [] := by
  unfold Create
  rw [hd]
  dsimp only
  rw [hp]
  dsimp only
  rw [if_neg (by rw [hP]; intro hh; cases hh)]

theorem phase_notfound_pullfail (e : dockerEngine) (step : Step) (sd : StepDocker)
    (w : World) {pe : RTErr}
    (h1 : e.client.createO w.time = some RTErr.imageNotFound)
    (h2 : sd.pullPolicy ≠ PullPolicy.pullNever)
    (h3 : e.client.pullO (w.time + 1) = some pe) :
    createContainerPhase e step sd w =
      (some pe, tick (tick w),
        [Call.containerCreate step.uid, Call.imagePull sd.image]) := by
  unfold createContainerPhase containerCreateCall
  rw [h1]
  dsimp only
  rw [if_pos (by
    simp only [Bool.and_eq_true]
    exact ⟨rfl, by simp [h2]⟩)]
  unfold imagePullCall tick
  dsimp only
  rw [h3]

theorem phase_notfound_retry (e : dockerEngine) (step : Step) (sd : StepDocker)
    (w : World)
    (h1 : e.client.createO w.time = some RTErr.imageNotFound)
    (h2 : sd.pullPolicy ≠ PullPolicy.pullNever)
    (h3 : e.client.pullO (w.time + 1) = none) :
    (createContainerPhase e step sd w).1 = e.client.createO (w.time + 2) ∧
    (createContainerPhase e step sd w).2.2 =
      [Call.containerCreate step.uid, Call.imagePull sd.image,
        Call.containerCreate step.uid] ∧
    (createContainerPhase e step sd w).2.1.time = w.time + 3 := by
  unfold createContainerPhase containerCreateCall
  rw [h1]
  dsimp only
  rw [if_pos (by
    simp only [Bool.and_eq_true]
    exact ⟨rfl, by simp [h2]⟩)]
  unfold imagePullCall tick
  dsimp only
  rw [h3]
  dsimp only
  cases hc2 : e.client.createO (w.time + 2) with
  | none => exact ⟨rfl, rfl, rfl⟩
  | some e2 => exact ⟨rfl, rfl, rfl⟩

theorem phase_other (e : dockerEngine) (step : Step) (sd : StepDocker) (w : World)
    (h : isErrImageNotFound (e.client.createO w.time) = false
      ∨ sd.pullPolicy = PullPolicy.pullNever) :
    (createContainerPhase e step sd w).1 = e.client.createO w.time ∧
    (createContainerPhase e step sd w).2.2 = [Call.containerCreate step.uid] ∧
    (createContainerPhase e step sd w).2.1.time = w.time + 1 := by
  unfold createContainerPhase containerCreateCall
  have hcond : ¬ (isErrImageNotFound (e.client.createO w.time)
      && !(sd.pullPolicy == PullPolicy.pullNever)) = true := by
    rcases h with h | h
    · simp [h]
    · simp [h]
  cases hc : e.client.createO w.time with
  | none =>
    dsimp only
    rw [hc] at hcond
    rw [if_neg hcond]
    exact ⟨rfl, rfl, rfl⟩
  | some e2 =>
    dsimp only
    rw [hc] at hcond
    rw [if_neg hcond]
    exact ⟨rfl, rfl, rfl⟩

theorem createRest_phase_err {e : dockerEngine} {step : Step} {sd : StepDocker}
    {w : World} {t₀ : List Call} {err : RTErr}
    (h : (createContainerPhase e step sd w).1 = some err) :
    createRest e step sd w t₀ =
      (some (CreateErr.rt err), (createContainerPhase e step sd w).2.1,
        t₀ ++ (createContainerPhase e step sd w).2.2) := by
  unfold createRest
  cases hph : createContainerPhase e step sd w with
  | mk r q =>
    rw [hph] at h
    dsimp only at h
    rw [h]

theorem createRest_phase_ok {e : dockerEngine} {step : Step} {sd : StepDocker}
    {w : World} {t₀ : List Call}
    (h : (createContainerPhase e step sd w).1 = none) :
    createRest e step sd w t₀ =
      ((copyFiles e step.uid step.files (createContainerPhase e step sd w).2.1).1.map CreateErr.rt,
        (copyFiles e step.uid step.files (createContainerPhase e step sd w).2.1).2.1,
        t₀ ++ (createContainerPhase e step sd w).2.2
          ++ (copyFiles e step.uid step.files (createContainerPhase e step sd w).2.1).2.2) := by
  unfold createRest
  cases hph : createContainerPhase e step sd w with
  | mk r q =>
    rw [hph] at h
    dsimp only at h
    rw [h]

/-! ## The copy loop -/

theorem copyFiles_calls_copyOnly (e : dockerEngine) (uid : String) :
    ∀ (ms : List FileMount) (w : World),
      ∀ call ∈ (copyFiles e uid ms w).2.2,
        ∃ tar, call = Call.copyToContainer uid "/" tar := by
  intro ms
  induction ms with
  | nil => intro w call hc; simp [copyFiles] at hc
  | cons m rest ih =>
    intro w call hc
    unfold copyFiles at hc
    cases hl : LookupFile e.spec m.name with
    | none =>
      rw [hl] at hc
      exact ih w call hc
    | some f =>
      rw [hl] at hc
      dsimp only at hc
      unfold copyCall at hc
      cases hco : e.client.copyO w.time with
      | some err =>
        rw [hco] at hc
        dsimp only at hc
        rcases List.mem_cons.mp hc with rfl | hc'
        · exact ⟨createTarfile f m, rfl⟩
        · simp at hc'
      | none =>
        rw [hco] at hc
        dsimp only at hc
        cases hrec : copyFiles e uid rest (tick w) with
        | mk r2 q2 =>
          rw [hrec] at hc
          dsimp only at hc
          rcases List.mem_cons.mp hc with rfl | hc'
          · exact ⟨createTarfile f m, rfl⟩
          · have := ih (tick w) call (by rw [hrec]; exact hc')
            exact this

theorem copyFiles_success (e : dockerEngine) (uid : String) :
    ∀ (ms : List FileMount) (w : World),
      (∀ j, j < (foundMounts e.spec ms).length → e.client.copyO (w.time + j) = none) →
      (copyFiles e uid ms w).1 = none ∧
      (copyFiles e uid ms w).2.2 = (foundMounts e.spec ms).map
        (fun p => Call.copyToContainer uid "/" (createTarfile p.2 p.1)) := by
  intro ms
  induction ms with
  | nil => intro w _; exact ⟨rfl, rfl⟩
  | cons m rest ih =>
    intro w hj
    unfold copyFiles
    unfold foundMounts at hj ⊢
    cases hl : LookupFile e.spec m.name with
    | none =>
      rw [hl] at hj
      dsimp only at hj ⊢
      exact ih w hj
    | some f =>
      rw [hl] at hj
      dsimp only at hj ⊢
      unfold copyCall
      have h0 : e.client.copyO w.time = none := by
        have := hj 0 (by simp)
        simpa using this
      rw [h0]
      dsimp only
      have hrec := ih (tick w) (by
        intro j hjl
        have hshift : (tick w).time + j = w.time + (j + 1) := by
          show w.time + 1 + j = w.time + (j + 1)
          omega
        rw [hshift]
        exact hj (j + 1) (by simpa using Nat.succ_lt_succ hjl))
      cases hcf : copyFiles e uid rest (tick w) with
      | mk r2 q2 =>
        rw [hcf] at hrec
        dsimp only at hrec ⊢
        exact ⟨hrec.1, by rw [hrec.2]; simp⟩

theorem copyFiles_fail (e : dockerEngine) (uid : String) :
    ∀ (ms : List FileMount) (w : World) (k : Nat) (err : RTErr),
      e.client.copyO (w.time + k) = some err →
      (∀ j, j < k → e.client.copyO (w.time + j) = none) →
      k < (foundMounts e.spec ms).length →
      (copyFiles e uid ms w).1 = some err ∧
      (copyFiles e uid ms w).2.2 = ((foundMounts e.spec ms).take (k + 1)).map
        (fun p => Call.copyToContainer uid "/" (createTarfile p.2 p.1)) := by
  intro ms
  induction ms with
  | nil => intro w k err _ _ hk; simp [foundMounts] at hk
  | cons m rest ih =>
    intro w k err hk hj hkl
    unfold copyFiles
    unfold foundMounts at hkl ⊢
    cases hl : LookupFile e.spec m.name with
    | none =>
      rw [hl] at hkl
      dsimp only at hkl ⊢
      exact ih w k err hk hj hkl
    | some f =>
      rw [hl] at hkl
      dsimp only at hkl ⊢
      unfold copyCall
      cases k with
      | zero =>
        have h0 : e.client.copyO w.time = some err := by simpa using hk
        rw [h0]
        dsimp only
        exact ⟨rfl, rfl⟩
      | succ k' =>
        have h0 : e.client.copyO w.time = none := by
          have := hj 0 (Nat.succ_pos k')
          simpa using this
        rw [h0]
        dsimp only
        have hrec := ih (tick w) k' err
          (by
            have hshift : (tick w).time + k' = w.time + (k' + 1) := by
              show w.time + 1 + k' = w.time + (k' + 1)
              omega
            rw [hshift]
            exact hk)
          (by
            intro j hjl
            have hshift : (tick w).time + j = w.time + (j + 1) := by
              show w.time + 1 + j = w.time + (j + 1)
              omega
            rw [hshift]
            exact hj (j + 1) (Nat.succ_lt_succ hjl))
          (Nat.lt_of_succ_lt_succ (by simpa using hkl))
        cases hcf : copyFiles e uid rest (tick w) with
        | mk r2 q2 =>
          rw [hcf] at hrec
          dsimp only at hrec ⊢
          exact ⟨hrec.1, by rw [hrec.2]; simp⟩

/-! ## Trace counting helpers -/

theorem countPulls_eq_zero {t : List Call} (h : ∀ call ∈ t, isPullCall call = false) :
    countPulls t = 0 := by
  unfold countPulls
  have : t.filter isPullCall = [] := by
    rw [List.filter_eq_nil]
    intro a ha
    simp [h a ha]
  rw [this]
  rfl

theorem countCreates_eq_zero {t : List Call} (h : ∀ call ∈ t, isCreateCall call = false) :
    countCreates t = 0 := by
  unfold countCreates
  have : t.filter isCreateCall = [] := by
    rw [List.filter_eq_nil]
    intro a ha
    simp [h a ha]
  rw [this]
  rfl

theorem countPulls_append (a b : List Call) :
    countPulls (a ++ b) = countPulls a + countPulls b := by
  unfold countPulls
  rw [List.filter_append, List.length_append]

theorem prePullCond_iff (sd : StepDocker) (latest : Bool) :
    prePullCond sd latest = true ↔
      (sd.pullPolicy = PullPolicy.pullAlways ∨
        (sd.pullPolicy = PullPolicy.pullDefault ∧ latest = true)) := by
  unfold prePullCond
  cases hpp : sd.pullPolicy <;> cases latest <;> simp

theorem prePullCond_never {sd : StepDocker} (h : sd.pullPolicy = PullPolicy.pullNever)
    (latest : Bool) : prePullCond sd latest = false := by
  unfold prePullCond
  rw [h]
  cases latest <;> rfl

theorem phase_trace_props (e : dockerEngine) (step : Step) (sd : StepDocker) (w : World) :
    (createContainerPhase e step sd w).2.2.head? = some (Call.containerCreate step.uid)
    ∧ (∀ call ∈ (createContainerPhase e step sd w).2.2, isVolumeCall call = false)
    ∧ (sd.pullPolicy = PullPolicy.pullNever →
        countPulls (createContainerPhase e step sd w).2.2 = 0) := by
  unfold createContainerPhase containerCreateCall
  cases hc : e.client.createO w.time with
  | none =>
    dsimp only
    rw [if_neg (by simp [isErrImageNotFound])]
    refine ⟨rfl, ?_, fun _ => rfl⟩
    intro call hcall
    rcases List.mem_cons.mp hcall with rfl | h'
    · rfl
    · simp at h'
  | some err =>
    dsimp only
    by_cases hg : (isErrImageNotFound (some err)
        && !(sd.pullPolicy == PullPolicy.pullNever)) = true
    · rw [if_pos hg]
      have hnev : ¬ sd.pullPolicy = PullPolicy.pullNever := by
        simp only [Bool.and_eq_true] at hg
        simpa using hg.2
      unfold imagePullCall
      cases hpo : e.client.pullO (tick w).time with
      | some pe =>
        dsimp only
        refine ⟨rfl, ?_, fun hnv => absurd hnv hnev⟩
        intro call hcall
        rcases List.mem_cons.mp hcall with rfl | h'
        · rfl
        · rcases List.mem_cons.mp h' with rfl | h''
          · rfl
          · simp at h''
      | none =>
        dsimp only
        cases hc2 : e.client.createO (tick (tick w)).time with
        | none =>
          refine ⟨rfl, ?_, fun hnv => absurd hnv hnev⟩
          intro call hcall
          rcases List.mem_cons.mp hcall with rfl | h'
          · rfl
          · rcases List.mem_cons.mp h' with rfl | h''
            · rfl
            · rcases List.mem_cons.mp h'' with rfl | h3
              · rfl
              · simp at h3
        | some e2 =>
          refine ⟨rfl, ?_, fun hnv => absurd hnv hnev⟩
          intro call hcall
          rcases List.mem_cons.mp hcall with rfl | h'
          · rfl
          · rcases List.mem_cons.mp h' with rfl | h''
            · rfl
            · rcases List.mem_cons.mp h'' with rfl | h3
              · rfl
              · simp at h3
    · rw [if_neg hg]
      refine ⟨rfl, ?_, fun _ => rfl⟩
      intro call hcall
      rcases List.mem_cons.mp hcall with rfl | h'
      · rfl
      · simp at h'

/-! ## C2: the pre-creation pull policy -/

/-- C2: with docker configuration present and the image reference parsed,
`Create` issues a pull before container creation iff the policy is
`PullAlways`, or `PullDefault` with a latest-tagged image; under
`PullNever` no pull is ever issued at all; and a failing pre-creation pull
aborts `Create` with that error before any container is created. -/
theorem create_prePull_policy (e : dockerEngine) (step : Step) (sd : StepDocker)
    (w : World) (can dom : List Char) (latest : Bool)
    (hd : step.docker = some sd)
    (hp : parseImage sd.image = Except.ok (can, dom, latest)) :
    ((Create e step w).2.2.head? = some (Call.imagePull sd.image) ↔
      (sd.pullPolicy = PullPolicy.pullAlways ∨
        (sd.pullPolicy = PullPolicy.pullDefault ∧ latest = true)))
    ∧ (sd.pullPolicy = PullPolicy.pullNever → countPulls (Create e step w).2.2 = 0)
    ∧ (∀ pe, prePullCond sd latest = true → e.client.pullO w.time = some pe →
        (Create e step w).1 = some (CreateErr.rt pe) ∧
        (Create e step w).2.2 = [Call.imagePull sd.image] ∧
        countCreates (Create e step w).2.2 = 0) := by
  refine ⟨?_, ?_, ?_⟩
  · rw [← prePullCond_iff]
    by_cases hP : prePullCond sd latest = true
    · simp only [hP, iff_true]
      cases hpo : e.client.pullO w.time with
      | some pe =>
        rw [create_eq_pullfail e step sd w hd hp hP hpo]
        rfl
      | none =>
        rw [create_eq_rest_pre e step sd w hd hp hP hpo]
        cases hph1 : (createContainerPhase e step sd (tick w)).1 with
        | some err =>
          rw [createRest_phase_err hph1]
          rfl
        | none =>
          rw [createRest_phase_ok hph1]
          rfl
    · have hPf : prePullCond sd latest = false := by
        simpa using hP
      simp only [hPf, Bool.false_eq_true, iff_false]
      rw [create_eq_rest_nopre e step sd w hd hp hPf]
      have hhead := (phase_trace_props e step sd w).1
      cases hph1 : (createContainerPhase e step sd w).1 with
      | some err =>
        rw [createRest_phase_err hph1]
        dsimp only
        rw [List.nil_append]
        rw [hhead]
        intro hh
        injection hh with hh'
        cases hh'
      | none =>
        rw [createRest_phase_ok hph1]
        dsimp only
        rw [List.nil_append]
        cases hphr : (createContainerPhase e step sd w).2.2 with
        | nil => rw [hphr] at hhead; cases hhead
        | cons c0 crest =>
          rw [hphr] at hhead
          simp only [List.head?_cons] at hhead
          injection hhead with hh0
          rw [List.cons_append, List.head?_cons, hh0]
          intro hh
          injection hh with hh'
          cases hh'
  · intro hnever
    have hPf : prePullCond sd latest = false := prePullCond_never hnever latest
    rw [create_eq_rest_nopre e step sd w hd hp hPf]
    have hnp := (phase_trace_props e step sd w).2.2 hnever
    cases hph1 : (createContainerPhase e step sd w).1 with
    | some err =>
      rw [createRest_phase_err hph1]
      dsimp only
      rw [List.nil_append]
      exact hnp
    | none =>
      rw [createRest_phase_ok hph1]
      dsimp only
      rw [List.nil_append, countPulls_append, hnp]
      have : countPulls (copyFiles e step.uid step.files
          (createContainerPhase e step sd w).2.1).2.2 = 0 := by
        apply countPulls_eq_zero
        intro call hcall
        obtain ⟨tar, rfl⟩ := copyFiles_calls_copyOnly e step.uid step.files
          (createContainerPhase e step sd w).2.1 call hcall
        rfl
      rw [this]
  · intro pe hP hpo
    rw [create_eq_pullfail e step sd w hd hp hP hpo]
    exact ⟨rfl, rfl, rfl⟩

/-- Closed instance of `create_prePull_policy`: under `PullDefault` with a
latest-tagged image the trace starts with the pull. -/
theorem create_prePull_policy_witness :
    ((Docker.Create ⟨sampleSpec, noopClient⟩ sampleStep emptyWorld).2.2.head?
      = some (Call.imagePull "alpine".data)) := by
  have h := create_prePull_policy ⟨sampleSpec, noopClient⟩ sampleStep
    ⟨"alpine".data, PullPolicy.pullDefault⟩ emptyWorld
    "docker.io/library/alpine:latest".data "docker.io".data true rfl (by decide)
  exact h.1.mpr (Or.inr ⟨rfl, rfl⟩)

/-! ## C1: the bounded not-found recovery -/

/-- C1: when creation fails with the image-not-found condition and the
policy is not `PullNever`, `Create` performs exactly one pull followed by
exactly one retried creation (the pre-creation pull, when the policy
requested one and it succeeded, is the `preT` prefix of the trace); a
failing recovery pull returns that pull error with no retry; a failing
retried creation is returned unchanged with nothing further; a successful
retry is followed only by file copies; and any other creation error — or
image-not-found under `PullNever` — is returned unchanged with no further
pull or creation attempt. -/
theorem create_notFound_recovery (e : dockerEngine) (step : Step) (sd : StepDocker)
    (w : World) (can dom : List Char) (latest : Bool)
    (hd : step.docker = some sd)
    (hp : parseImage sd.image = Except.ok (can, dom, latest))
    (hpre : prePullCond sd latest = true → e.client.pullO w.time = none) :
    (∀ pe, e.client.createO (w.time + (if prePullCond sd latest then 1 else 0))
        = some RTErr.imageNotFound →
      sd.pullPolicy ≠ PullPolicy.pullNever →
      e.client.pullO (w.time + (if prePullCond sd latest then 1 else 0) + 1) = some pe →
      (Create e step w).1 = some (CreateErr.rt pe) ∧
      (Create e step w).2.2 =
        (if prePullCond sd latest then [Call.imagePull sd.image] else [])
          ++ [Call.containerCreate step.uid, Call.imagePull sd.image])
    ∧ (∀ e₂, e.client.createO (w.time + (if prePullCond sd latest then 1 else 0))
        = some RTErr.imageNotFound →
      sd.pullPolicy ≠ PullPolicy.pullNever →
      e.client.pullO (w.time + (if prePullCond sd latest then 1 else 0) + 1) = none →
      e.client.createO (w.time + (if prePullCond sd latest then 1 else 0) + 2) = some e₂ →
      (Create e step w).1 = some (CreateErr.rt e₂) ∧
      (Create e step w).2.2 =
        (if prePullCond sd latest then [Call.imagePull sd.image] else [])
          ++ [Call.containerCreate step.uid, Call.imagePull sd.image,
              Call.containerCreate step.uid])
    ∧ (e.client.createO (w.time + (if prePullCond sd latest then 1 else 0))
        = some RTErr.imageNotFound →
      sd.pullPolicy ≠ PullPolicy.pullNever →
      e.client.pullO (w.time + (if prePullCond sd latest then 1 else 0) + 1) = none →
      e.client.createO (w.time + (if prePullCond sd latest then 1 else 0) + 2) = none →
      ∃ tc, (Create e step w).2.2 =
        (if prePullCond sd latest then [Call.imagePull sd.image] else [])
          ++ [Call.containerCreate step.uid, Call.imagePull sd.image,
              Call.containerCreate step.uid] ++ tc
        ∧ countPulls tc = 0 ∧ countCreates tc = 0)
    ∧ (e.client.createO (w.time + (if prePullCond sd latest then 1 else 0))
        = some RTErr.imageNotFound →
      sd.pullPolicy = PullPolicy.pullNever →
      (Create e step w).1 = some (CreateErr.rt RTErr.imageNotFound) ∧
      (Create e step w).2.2 =
        (if prePullCond sd latest then [Call.imagePull sd.image] else [])
          ++ [Call.containerCreate step.uid])
    ∧ (∀ n, e.client.createO (w.time + (if prePullCond sd latest then 1 else 0))
        = some (RTErr.generic n) →
      (Create e step w).1 = some (CreateErr.rt (RTErr.generic n)) ∧
      (Create e step w).2.2 =
        (if prePullCond sd latest then [Call.imagePull sd.image] else [])
          ++ [Call.containerCreate step.uid]) := by
  by_cases hP : prePullCond sd latest = true
  · -- pre-pull requested and (by hpre) succeeding
    have hpo := hpre hP
    have hred := create_eq_rest_pre e step sd w hd hp hP hpo
    have htw : (tick w).time = w.time + 1 := rfl
    refine ⟨?_, ?_, ?_, ?_, ?_⟩
    · intro pe h1 h2 h3
      simp only [hP, if_true] at h1 h3 ⊢
      rw [hred]
      have hph := phase_notfound_pullfail e step sd (tick w) (by rw [htw]; exact h1) h2 (by rw [htw]; exact h3)
      rw [createRest_phase_err (by rw [hph])]
      rw [hph]
      exact ⟨rfl, rfl⟩
    · intro e₂ h1 h2 h3 h4
      simp only [hP, if_true] at h1 h3 h4 ⊢
      rw [hred]
      obtain ⟨hr1, hr2, -⟩ := phase_notfound_retry e step sd (tick w) (by rw [htw]; exact h1) h2 (by rw [htw]; exact h3)
      rw [htw] at hr1
      rw [createRest_phase_err (by rw [hr1]; exact h4)]
      rw [hr2]
      exact ⟨rfl, rfl⟩
    · intro h1 h2 h3 h4
      simp only [hP, if_true] at h1 h3 h4 ⊢
      rw [hred]
      obtain ⟨hr1, hr2, -⟩ := phase_notfound_retry e step sd (tick w) (by rw [htw]; exact h1) h2 (by rw [htw]; exact h3)
      rw [htw] at hr1
      have heq : w.time + 1 + 2 = w.time + 1 + 1 + 1 := rfl
      rw [heq] at h4
      rw [createRest_phase_ok (by rw [hr1]; exact h4)]
      refine ⟨(copyFiles e step.uid step.files
        (createContainerPhase e step sd (tick w)).2.1).2.2, ?_, ?_, ?_⟩
      · rw [hr2]
      · apply countPulls_eq_zero
        intro call hcall
        obtain ⟨tar, rfl⟩ := copyFiles_calls_copyOnly e step.uid step.files
          (createContainerPhase e step sd (tick w)).2.1 call hcall
        rfl
      · apply countCreates_eq_zero
        intro call hcall
        obtain ⟨tar, rfl⟩ := copyFiles_calls_copyOnly e step.uid step.files
          (createContainerPhase e step sd (tick w)).2.1 call hcall
        rfl
    · intro h1 h2
      simp only [hP, if_true] at h1 ⊢
      rw [hred]
      obtain ⟨hr1, hr2, -⟩ := phase_other e step sd (tick w) (Or.inr h2)
      rw [htw] at hr1
      rw [createRest_phase_err (by rw [hr1]; exact h1)]
      rw [hr2]
      exact ⟨rfl, rfl⟩
    · intro n h1
      simp only [hP, if_true] at h1 ⊢
      rw [hred]
      obtain ⟨hr1, hr2, -⟩ := phase_other e step sd (tick w) (Or.inl (by rw [htw, h1]; rfl))
      rw [htw] at hr1
      rw [createRest_phase_err (by rw [hr1]; exact h1)]
      rw [hr2]
      exact ⟨rfl, rfl⟩
  · -- no pre-pull
    have hPf : prePullCond sd latest = false := by simpa using hP
    have hred := create_eq_rest_nopre e step sd w hd hp hPf
    refine ⟨?_, ?_, ?_, ?_, ?_⟩
    · intro pe h1 h2 h3
      simp only [hPf, Bool.false_eq_true, if_false, Nat.add_zero] at h1 h3 ⊢
      rw [hred]
      have hph := phase_notfound_pullfail e step sd w h1 h2 h3
      rw [createRest_phase_err (by rw [hph])]
      rw [hph]
      exact ⟨rfl, by simp⟩
    · intro e₂ h1 h2 h3 h4
      simp only [hPf, Bool.false_eq_true, if_false, Nat.add_zero] at h1 h3 h4 ⊢
      rw [hred]
      obtain ⟨hr1, hr2, -⟩ := phase_notfound_retry e step sd w h1 h2 h3
      rw [createRest_phase_err (by rw [hr1]; exact h4)]
      rw [hr2]
      exact ⟨rfl, by simp⟩
    · intro h1 h2 h3 h4
      simp only [hPf, Bool.false_eq_true, if_false, Nat.add_zero] at h1 h3 h4 ⊢
      rw [hred]
      obtain ⟨hr1, hr2, -⟩ := phase_notfound_retry e step sd w h1 h2 h3
      rw [createRest_phase_ok (by rw [hr1]; exact h4)]
      refine ⟨(copyFiles e step.uid step.files
        (createContainerPhase e step sd w).2.1).2.2, ?_, ?_, ?_⟩
      · rw [hr2]
      · apply countPulls_eq_zero
        intro call hcall
        obtain ⟨tar, rfl⟩ := copyFiles_calls_copyOnly e step.uid step.files
          (createContainerPhase e step sd w).2.1 call hcall
        rfl
      · apply countCreates_eq_zero
        intro call hcall
        obtain ⟨tar, rfl⟩ := copyFiles_calls_copyOnly e step.uid step.files
          (createContainerPhase e step sd w).2.1 call hcall
        rfl
    · intro h1 h2
      simp only [hPf, Bool.false_eq_true, if_false, Nat.add_zero] at h1 ⊢
      rw [hred]
      obtain ⟨hr1, hr2, -⟩ := phase_other e step sd w (Or.inr h2)
      rw [createRest_phase_err (by rw [hr1]; exact h1)]
      rw [hr2]
      exact ⟨rfl, by simp⟩
    · intro n h1
      simp only [hPf, Bool.false_eq_true, if_false, Nat.add_zero] at h1 ⊢
      rw [hred]
      obtain ⟨hr1, hr2, -⟩ := phase_other e step sd w (Or.inl (by rw [h1]; rfl))
      rw [createRest_phase_err (by rw [hr1]; exact h1)]
      rw [hr2]
      exact ⟨rfl, by simp⟩

/-- Closed instance of `create_notFound_recovery`: image-not-found on the
first creation, recovery pull failing — `Create` returns the pull error
after exactly one creation and one pull. -/
theorem create_notFound_recovery_witness :
    (Docker.Create recEngine recStep emptyWorld).1
        = some (CreateErr.rt (RTErr.generic 5))
    ∧ (Docker.Create recEngine recStep emptyWorld).2.2
        = [Call.containerCreate "s1", Call.imagePull "alpine:3.9".data] := by
  have h := (create_notFound_recovery recEngine recStep
      ⟨"alpine:3.9".data, PullPolicy.pullDefault⟩ emptyWorld
      "docker.io/library/alpine:3.9".data "docker.io".data false
      rfl (by decide) (by intro hh; exact absurd hh (by decide))).1
      (RTErr.generic 5) (by decide) (by decide) (by decide)
  exact ⟨h.1, by rw [h.2]; decide⟩

/-! ## C7: file mounts -/

/-- C7: once `Create` reaches the file-mount loop (configuration present,
reference parsed, any requested pre-pull succeeded, container creation
succeeded), a mount whose payload name is unknown contributes no archive
entry, no copy call and no error — `foundMounts` drops it and processing
continues — while a failing copy of a found payload aborts `Create` with
that error after the copies of the earlier found payloads. -/
theorem create_file_mounts (e : dockerEngine) (step : Step) (sd : StepDocker)
    (w : World) (can dom : List Char) (latest : Bool)
    (hd : step.docker = some sd)
    (hp : parseImage sd.image = Except.ok (can, dom, latest))
    (hpre : prePullCond sd latest = true → e.client.pullO w.time = none)
    (w₁ : World)
    (hw₁ : w₁ = if prePullCond sd latest then tick w else w)
    (hcc : (createContainerPhase e step sd w₁).1 = none) :
    ((∀ j, j < (foundMounts e.spec step.files).length →
        e.client.copyO ((createContainerPhase e step sd w₁).2.1.time + j) = none) →
      (Create e step w).1 = none ∧
      (Create e step w).2.2 =
        (if prePullCond sd latest then [Call.imagePull sd.image] else [])
          ++ (createContainerPhase e step sd w₁).2.2
          ++ (foundMounts e.spec step.files).map
              (fun p => Call.copyToContainer step.uid "/" (createTarfile p.2 p.1)))
    ∧ (∀ k err,
        e.client.copyO ((createContainerPhase e step sd w₁).2.1.time + k) = some err →
        (∀ j, j < k →
          e.client.copyO ((createContainerPhase e step sd w₁).2.1.time + j) = none) →
        k < (foundMounts e.spec step.files).length →
        (Create e step w).1 = some (CreateErr.rt err) ∧
        (Create e step w).2.2 =
          (if prePullCond sd latest then [Call.imagePull sd.image] else [])
            ++ (createContainerPhase e step sd w₁).2.2
            ++ ((foundMounts e.spec step.files).take (k + 1)).map
                (fun p => Call.copyToContainer step.uid "/" (createTarfile p.2 p.1))) := by
  by_cases hP : prePullCond sd latest = true
  · simp only [hP, if_true] at hw₁ ⊢
    subst hw₁
    have hred := create_eq_rest_pre e step sd w hd hp hP (hpre hP)
    rw [hred, createRest_phase_ok hcc]
    constructor
    · intro hcopy
      obtain ⟨hc1, hc2⟩ := copyFiles_success e step.uid step.files
        (createContainerPhase e step sd (tick w)).2.1 hcopy
      rw [hc1, hc2]
      exact ⟨rfl, by simp⟩
    · intro k err hk hj hkl
      obtain ⟨hc1, hc2⟩ := copyFiles_fail e step.uid step.files
        (createContainerPhase e step sd (tick w)).2.1 k err hk hj hkl
      rw [hc1, hc2]
      exact ⟨rfl, by simp⟩
  · have hPf : prePullCond sd latest = false := by simpa using hP
    simp only [hPf, Bool.false_eq_true, if_false] at hw₁ ⊢
    rw [hw₁] at hcc ⊢
    have hred := create_eq_rest_nopre e step sd w hd hp hPf
    rw [hred, createRest_phase_ok hcc]
    constructor
    · intro hcopy
      obtain ⟨hc1, hc2⟩ := copyFiles_success e step.uid step.files
        (createContainerPhase e step sd w).2.1 hcopy
      rw [hc1, hc2]
      exact ⟨rfl, by simp⟩
    · intro k err hk hj hkl
      obtain ⟨hc1, hc2⟩ := copyFiles_fail e step.uid step.files
        (createContainerPhase e step sd w).2.1 k err hk hj hkl
      rw [hc1, hc2]
      exact ⟨rfl, by simp⟩

/-- Closed instance of `create_file_mounts` on `sampleSpec`: the unknown
payload name of the second mount is skipped, the one found payload is
copied, and `Create` succeeds. -/
theorem create_file_mounts_witness :
    (Docker.Create ⟨sampleSpec, noopClient⟩ sampleStep emptyWorld).1 = none
    ∧ (Docker.Create ⟨sampleSpec, noopClient⟩ sampleStep emptyWorld).2.2 =
        [Call.imagePull "alpine".data, Call.containerCreate "s1",
         Call.copyToContainer "s1" "/" ⟨"/p1", 420, [1, 2, 3]⟩] := by
  have h := (create_file_mounts ⟨sampleSpec, noopClient⟩ sampleStep
      ⟨"alpine".data, PullPolicy.pullDefault⟩ emptyWorld
      "docker.io/library/alpine:latest".data "docker.io".data true
      rfl (by decide) (fun _ => rfl)
      (tick emptyWorld) rfl (by decide)).1
      (fun j _ => rfl)
  exact ⟨h.1, by rw [h.2]; decide⟩

/-! ## C4: Setup -/

theorem volumeCreateCall_mono {c : Client} {n : String} {w : World} {x : String}
    (h : x ∈ w.volumes) : x ∈ (volumeCreateCall c n w).2.volumes := by
  unfold volumeCreateCall
  cases hr : c.volumeCreateO w.time with
  | none => exact List.mem_cons_of_mem n h
  | some e2 => exact h

theorem setupVolumes_mono (e : dockerEngine) :
    ∀ (vols : List Volume) (w : World) (x : String),
      x ∈ w.volumes → x ∈ (setupVolumes e vols w).2.1.volumes := by
  intro vols
  induction vols with
  | nil => intro w x h; exact h
  | cons v rest ih =>
    intro w x h
    unfold setupVolumes
    by_cases hskip : v.emptyDir = none
    · rw [if_pos hskip]
      exact ih w x h
    · rw [if_neg hskip]
      cases hvc : volumeCreateCall e.client v.uid w with
      | mk r w' =>
        have hm : x ∈ w'.volumes := by
          have := volumeCreateCall_mono (c := e.client) (n := v.uid) h
          rw [hvc] at this
          exact this
        cases r with
        | some e2 => exact hm
        | none =>
          dsimp only
          cases hrec : setupVolumes e rest w' with
          | mk r2 q =>
            have := ih w' x hm
            rw [hrec] at this
            exact this

theorem setupVolumes_success (e : dockerEngine) :
    ∀ (vols : List Volume) (w : World),
      (∀ j, j < (vols.filter (fun v => v.emptyDir ≠ none)).length →
        e.client.volumeCreateO (w.time + j) = none) →
      (setupVolumes e vols w).1 = none
      ∧ (setupVolumes e vols w).2.2 = (vols.filter (fun v => v.emptyDir ≠ none)).map
          (fun v => Call.volumeCreate v.uid "local" e.spec.labels)
      ∧ (setupVolumes e vols w).2.1.time
          = w.time + (vols.filter (fun v => v.emptyDir ≠ none)).length
      ∧ (∀ v ∈ vols.filter (fun v => v.emptyDir ≠ none),
          v.uid ∈ (setupVolumes e vols w).2.1.volumes)
      ∧ (setupVolumes e vols w).2.1.networks = w.networks := by
  intro vols
  induction vols with
  | nil =>
    intro w _
    exact ⟨rfl, rfl, rfl, by intro v hv; simp at hv, rfl⟩
  | cons v0 rest ih =>
    intro w hj
    unfold setupVolumes
    by_cases hskip : v0.emptyDir = none
    · have hfil : (v0 :: rest).filter (fun v => v.emptyDir ≠ none)
          = rest.filter (fun v => v.emptyDir ≠ none) := by
        simp [List.filter_cons, hskip]
      rw [if_pos hskip, hfil]
      rw [hfil] at hj
      exact ih w hj
    · have hfil : (v0 :: rest).filter (fun v => v.emptyDir ≠ none)
          = v0 :: rest.filter (fun v => v.emptyDir ≠ none) := by
        simp [List.filter_cons, hskip]
      rw [if_neg hskip, hfil]
      rw [hfil] at hj
      have h0 : e.client.volumeCreateO w.time = none := by
        have := hj 0 (by simp)
        simpa using this
      unfold volumeCreateCall
      rw [h0]
      dsimp only
      have hrec := ih { tick w with volumes := v0.uid :: w.volumes } (by
        intro j hjl
        have hshift : ({ tick w with volumes := v0.uid :: w.volumes } : World).time + j
            = w.time + (j + 1) := by
          show w.time + 1 + j = w.time + (j + 1)
          omega
        rw [hshift]
        exact hj (j + 1) (by simpa using Nat.succ_lt_succ hjl))
      cases hsv : setupVolumes e rest { tick w with volumes := v0.uid :: w.volumes } with
      | mk r2 q =>
        rw [hsv] at hrec
        dsimp only at hrec ⊢
        refine ⟨hrec.1, by rw [hrec.2.1]; simp, ?_, ?_, hrec.2.2.2.2⟩
        · rw [hrec.2.2.1]
          show w.time + 1 + _ = _
          simp
          omega
        · intro v hv
          rcases List.mem_cons.mp hv with rfl | hv'
          · have : v.uid ∈ ({ tick w with volumes := v.uid :: w.volumes } : World).volumes := by
              simp
            have hmono := setupVolumes_mono e rest
              { tick w with volumes := v.uid :: w.volumes } v.uid this
            rw [hsv] at hmono
            exact hmono
          · exact hrec.2.2.2.1 v hv'

theorem setupVolumes_fail (e : dockerEngine) :
    ∀ (vols : List Volume) (w : World) (k : Nat) (err : RTErr),
      e.client.volumeCreateO (w.time + k) = some err →
      (∀ j, j < k → e.client.volumeCreateO (w.time + j) = none) →
      k < (vols.filter (fun v => v.emptyDir ≠ none)).length →
      (setupVolumes e vols w).1 = some err
      ∧ (setupVolumes e vols w).2.2
          = ((vols.filter (fun v => v.emptyDir ≠ none)).take (k + 1)).map
            (fun v => Call.volumeCreate v.uid "local" e.spec.labels)
      ∧ (∀ v ∈ (vols.filter (fun v => v.emptyDir ≠ none)).take k,
          v.uid ∈ (setupVolumes e vols w).2.1.volumes) := by
  intro vols
  induction vols with
  | nil => intro w k err _ _ hk; simp at hk
  | cons v0 rest ih =>
    intro w k err hk hj hkl
    unfold setupVolumes
    by_cases hskip : v0.emptyDir = none
    · have hfil : (v0 :: rest).filter (fun v => v.emptyDir ≠ none)
          = rest.filter (fun v => v.emptyDir ≠ none) := by
        simp [List.filter_cons, hskip]
      rw [if_pos hskip, hfil]
      rw [hfil] at hkl
      exact ih w k err hk hj hkl
    · have hfil : (v0 :: rest).filter (fun v => v.emptyDir ≠ none)
          = v0 :: rest.filter (fun v => v.emptyDir ≠ none) := by
        simp [List.filter_cons, hskip]
      rw [if_neg hskip, hfil]
      rw [hfil] at hkl
      unfold volumeCreateCall
      cases k with
      | zero =>
        have h0 : e.client.volumeCreateO w.time = some err := by simpa using hk
        rw [h0]
        dsimp only
        exact ⟨rfl, rfl, by intro v hv; simp at hv⟩
      | succ k' =>
        have h0 : e.client.volumeCreateO w.time = none := by
          have := hj 0 (Nat.succ_pos k')
          simpa using this
        rw [h0]
        dsimp only
        have hrec := ih { tick w with volumes := v0.uid :: w.volumes } k' err
          (by
            have hshift : ({ tick w with volumes := v0.uid :: w.volumes } : World).time + k'
                = w.time + (k' + 1) := by
              show w.time + 1 + k' = w.time + (k' + 1)
              omega
            rw [hshift]
            exact hk)
          (by
            intro j hjl
            have hshift : ({ tick w with volumes := v0.uid :: w.volumes } : World).time + j
                = w.time + (j + 1) := by
              show w.time + 1 + j = w.time + (j + 1)
              omega
            rw [hshift]
            exact hj (j + 1) (Nat.succ_lt_succ hjl))
          (Nat.lt_of_succ_lt_succ (by simpa using hkl))
        cases hsv : setupVolumes e rest { tick w with volumes := v0.uid :: w.volumes } with
        | mk r2 q =>
          rw [hsv] at hrec
          dsimp only at hrec ⊢
          refine ⟨hrec.1, by rw [hrec.2.1]; simp, ?_⟩
          intro v hv
          rw [List.take_succ_cons] at hv
          rcases List.mem_cons.mp hv with rfl | hv'
          · have : v.uid ∈ ({ tick w with volumes := v.uid :: w.volumes } : World).volumes := by
              simp
            have hmono := setupVolumes_mono e rest
              { tick w with volumes := v.uid :: w.volumes } v.uid this
            rw [hsv] at hmono
            exact hmono
          · exact hrec.2.2 v hv'

/-- C4: `Setup` creates one `local`-driver volume per declared ephemeral
volume, in declaration order; when all succeed the `bridge` network is
created and its result is `Setup`'s result; the first volume-creation
error aborts `Setup` with that error — no later volume is created, the
network is never created, and the earlier volumes remain in the world
(no rollback). -/
theorem setup_first_error_aborts (e : dockerEngine) (w : World) :
    ((∀ j, j < (ephemerals e.spec).length →
        e.client.volumeCreateO (w.time + j) = none) →
      (Docker.Setup e w).2.2 = (ephemerals e.spec).map
          (fun v => Call.volumeCreate v.uid "local" e.spec.labels)
        ++ [Call.networkCreate e.spec.uid "bridge" e.spec.labels]
      ∧ (Docker.Setup e w).1
          = e.client.networkCreateO (w.time + (ephemerals e.spec).length))
    ∧ (∀ k err, k < (ephemerals e.spec).length →
        e.client.volumeCreateO (w.time + k) = some err →
        (∀ j, j < k → e.client.volumeCreateO (w.time + j) = none) →
        (Docker.Setup e w).1 = some err
        ∧ (Docker.Setup e w).2.2 = ((ephemerals e.spec).take (k + 1)).map
            (fun v => Call.volumeCreate v.uid "local" e.spec.labels)
        ∧ (∀ v ∈ (ephemerals e.spec).take k, v.uid ∈ (Docker.Setup e w).2.1.volumes)
        ∧ (∀ nm drv lbs, Call.networkCreate nm drv lbs ∉ (Docker.Setup e w).2.2)) := by
  unfold Docker.Setup
  cases hdoc : e.spec.docker with
  | none =>
    have heph : ephemerals e.spec = [] := by
      unfold ephemerals; rw [hdoc]
    dsimp only
    unfold networkCreateCall
    constructor
    · intro _
      rw [heph]
      cases hnc : e.client.networkCreateO w.time with
      | none => exact ⟨rfl, by rw [show w.time + ([] : List Volume).length = w.time from rfl, hnc]⟩
      | some e2 => exact ⟨rfl, by rw [show w.time + ([] : List Volume).length = w.time from rfl, hnc]⟩
    · intro k err hklt
      rw [heph] at hklt
      simp at hklt
  | some d =>
    have heph : ephemerals e.spec = d.volumes.filter (fun v => v.emptyDir ≠ none) := by
      unfold ephemerals; rw [hdoc]
    dsimp only
    cases hsv : setupVolumes e d.volumes w with
    | mk r q =>
      constructor
      · intro hj
        rw [heph] at hj
        have hS := setupVolumes_success e d.volumes w hj
        rw [hsv] at hS
        dsimp only at hS
        obtain ⟨hr, htr, htm, -, -⟩ := hS
        subst hr
        dsimp only
        unfold networkCreateCall
        rw [heph, htm]
        cases hnc : e.client.networkCreateO (w.time
            + (d.volumes.filter (fun v => v.emptyDir ≠ none)).length) with
        | none => exact ⟨by rw [htr], rfl⟩
        | some e2 => exact ⟨by rw [htr], rfl⟩
      · intro k err hklt hk hj
        rw [heph] at hklt
        have hF := setupVolumes_fail e d.volumes w k err hk hj hklt
        rw [hsv] at hF
        dsimp only at hF
        obtain ⟨hr, htr, hmem⟩ := hF
        subst hr
        dsimp only
        refine ⟨rfl, by rw [heph, htr], ?_, ?_⟩
        · rw [heph]
          exact hmem
        · intro nm drv lbs hmm
          rw [htr] at hmm
          obtain ⟨v, -, hv⟩ := List.mem_map.1 hmm
          exact Call.noConfusion hv

/-- Closed instance of `setup_first_error_aborts`: the second ephemeral
volume creation fails; `Setup` stops with that error, the network is not
created, and the first volume is live. -/
theorem setup_first_error_aborts_witness :
    (Docker.Setup ⟨setupSpec, setupFailClient⟩ emptyWorld).1 = some (RTErr.generic 3)
    ∧ (Docker.Setup ⟨setupSpec, setupFailClient⟩ emptyWorld).2.2 =
        [Call.volumeCreate "v1" "local" [], Call.volumeCreate "v3" "local" []]
    ∧ "v1" ∈ (Docker.Setup ⟨setupSpec, setupFailClient⟩ emptyWorld).2.1.volumes
    ∧ Call.networkCreate "n1" "bridge" []
        ∉ (Docker.Setup ⟨setupSpec, setupFailClient⟩ emptyWorld).2.2 := by
  have h := (setup_first_error_aborts ⟨setupSpec, setupFailClient⟩ emptyWorld).2
    1 (RTErr.generic 3) (by decide) (by decide)
    (fun j hjl => by
      have hj0 : j = 0 := by omega
      subst hj0
      rfl)
  refine ⟨h.1, by rw [h.2.1]; decide, ?_, h.2.2.2 "n1" "bridge" []⟩
  exact h.2.2.1 ⟨"v1", some ()⟩ (by decide)

/-- The container phase of `Destroy` always issues a kill and a remove for
every step, whatever the outcomes (both are discarded). -/
theorem destroyContainers_trace (e : dockerEngine) :
    ∀ (ss : List Step) (w : World),
      (destroyContainers e ss w).2
        = ss.flatMap
            (fun s => [Call.containerKill s.uid "9", Call.containerRemove s.uid]) := by
  intro ss
  induction ss with
  | nil => intro w; rfl
  | cons s rest ih =>
    intro w
    unfold destroyContainers containerKillCall
    dsimp only
    cases hrc : containerRemoveCall e.client s.uid (tick w) with
    | mk r w₂ =>
      cases hdc : destroyContainers e rest w₂ with
      | mk w₃ t =>
        dsimp only
        have h2 := ih w₂
        rw [hdc] at h2
        dsimp only at h2
        rw [h2, List.flatMap_cons]
        rfl

/-- If the removal-outcome sequence over the ephemeral part of `vols` has
its first error at position `k`, the volume loop of `Destroy` returns that
error with exactly the first `k + 1` removals in its trace. -/
theorem destroyVolumes_seq_fail (e : dockerEngine) :
    ∀ (vols : List Volume) (w : World) (k : Nat) (err : RTErr),
      (volRemoveSeq e.client
          (vols.filter (fun v => v.emptyDir ≠ none)) w).get? k
        = some (some err) →
      (∀ j, j < k →
        (volRemoveSeq e.client
            (vols.filter (fun v => v.emptyDir ≠ none)) w).get? j = some none) →
      (destroyVolumes e vols w).1 = some err
      ∧ (destroyVolumes e vols w).2.2
          = ((vols.filter (fun v => v.emptyDir ≠ none)).take (k + 1)).map
              (fun v => Call.volumeRemove v.uid) := by
  intro vols
  induction vols with
  | nil => intro w k err hk; simp [volRemoveSeq] at hk
  | cons v0 rest ih =>
    intro w k err hk hj
    by_cases hskip : v0.emptyDir = none
    · have hfil : (v0 :: rest).filter (fun v => v.emptyDir ≠ none)
          = rest.filter (fun v => v.emptyDir ≠ none) := by
        simp [List.filter_cons, hskip]
      rw [hfil] at hk hj ⊢
      unfold destroyVolumes
      rw [if_pos hskip]
      exact ih w k err hk hj
    · have hfil : (v0 :: rest).filter (fun v => v.emptyDir ≠ none)
          = v0 :: rest.filter (fun v => v.emptyDir ≠ none) := by
        simp [List.filter_cons, hskip]
      rw [hfil] at hk hj ⊢
      unfold destroyVolumes
      rw [if_neg hskip]
      cases hvc : volumeRemoveCall e.client v0.uid w with
      | mk r w' =>
        have hseq : volRemoveSeq e.client
            (v0 :: rest.filter (fun v => v.emptyDir ≠ none)) w
            = r :: volRemoveSeq e.client
                (rest.filter (fun v => v.emptyDir ≠ none)) w' := by
          show (match volumeRemoveCall e.client v0.uid w with
            | (q, u) => q :: volRemoveSeq e.client
                (rest.filter (fun v => v.emptyDir ≠ none)) u)
            = r :: volRemoveSeq e.client
                (rest.filter (fun v => v.emptyDir ≠ none)) w'
          rw [hvc]
        rw [hseq] at hk hj
        cases k with
        | zero =>
          have hr : r = some err := by simpa using hk
          subst hr
          dsimp only
          refine ⟨rfl, ?_⟩
          simp
        | succ q =>
          have hr : r = none := by
            have := hj 0 (Nat.succ_pos q)
            simpa using this
          subst hr
          dsimp only
          have hrec := ih w' q err (by simpa using hk)
            (fun j hjl => by
              have := hj (j + 1) (Nat.succ_lt_succ hjl)
              simpa using this)
          refine ⟨hrec.1, ?_⟩
          rw [List.take_succ_cons, List.map_cons, hrec.2]

/-- If every removal outcome over the ephemeral part of `vols` is a
success, the volume loop of `Destroy` succeeds with one removal per
ephemeral volume in its trace. -/
theorem destroyVolumes_seq_ok (e : dockerEngine) :
    ∀ (vols : List Volume) (w : World),
      (∀ r ∈ volRemoveSeq e.client
          (vols.filter (fun v => v.emptyDir ≠ none)) w, r = none) →
      (destroyVolumes e vols w).1 = none
      ∧ (destroyVolumes e vols w).2.2
          = (vols.filter (fun v => v.emptyDir ≠ none)).map
              (fun v => Call.volumeRemove v.uid) := by
  intro vols
  induction vols with
  | nil => intro w _; exact ⟨rfl, rfl⟩
  | cons v0 rest ih =>
    intro w hall
    by_cases hskip : v0.emptyDir = none
    · have hfil : (v0 :: rest).filter (fun v => v.emptyDir ≠ none)
          = rest.filter (fun v => v.emptyDir ≠ none) := by
        simp [List.filter_cons, hskip]
      rw [hfil] at hall ⊢
      unfold destroyVolumes
      rw [if_pos hskip]
      exact ih w hall
    · have hfil : (v0 :: rest).filter (fun v => v.emptyDir ≠ none)
          = v0 :: rest.filter (fun v => v.emptyDir ≠ none) := by
        simp [List.filter_cons, hskip]
      rw [hfil] at hall ⊢
      unfold destroyVolumes
      rw [if_neg hskip]
      cases hvc : volumeRemoveCall e.client v0.uid w with
      | mk r w' =>
        have hseq : volRemoveSeq e.client
            (v0 :: rest.filter (fun v => v.emptyDir ≠ none)) w
            = r :: volRemoveSeq e.client
                (rest.filter (fun v => v.emptyDir ≠ none)) w' := by
          show (match volumeRemoveCall e.client v0.uid w with
            | (q, u) => q :: volRemoveSeq e.client
                (rest.filter (fun v => v.emptyDir ≠ none)) u)
            = r :: volRemoveSeq e.client
                (rest.filter (fun v => v.emptyDir ≠ none)) w'
          rw [hvc]
        rw [hseq] at hall
        have hr : r = none := hall r (List.mem_cons_self r _)
        subst hr
        dsimp only
        have hrec := ih w' (fun x hx => hall x (List.mem_cons_of_mem none hx))
        refine ⟨hrec.1, ?_⟩
        rw [List.map_cons, hrec.2]

/-- `destroyVolumes_seq_fail` lifted to the volume phase over the declared
ephemerals. -/
theorem destroyVolumesPhase_seq_fail (e : dockerEngine) (w : World)
    (k : Nat) (err : RTErr)
    (hk : (volRemoveSeq e.client (ephemerals e.spec) w).get? k
        = some (some err))
    (hj : ∀ j, j < k →
      (volRemoveSeq e.client (ephemerals e.spec) w).get? j = some none) :
    (destroyVolumesPhase e w).1 = some err
    ∧ (destroyVolumesPhase e w).2.2
        = ((ephemerals e.spec).take (k + 1)).map
            (fun v => Call.volumeRemove v.uid) := by
  unfold destroyVolumesPhase
  unfold ephemerals at hk hj ⊢
  cases hd : e.spec.docker with
  | none =>
    rw [hd] at hk
    dsimp only at hk
    simp [volRemoveSeq] at hk
  | some d =>
    rw [hd] at hk hj
    dsimp only at hk hj ⊢
    exact destroyVolumes_seq_fail e d.volumes w k err hk hj

/-- `destroyVolumes_seq_ok` lifted to the volume phase over the declared
ephemerals. -/
theorem destroyVolumesPhase_seq_ok (e : dockerEngine) (w : World)
    (hall : ∀ r ∈ volRemoveSeq e.client (ephemerals e.spec) w, r = none) :
    (destroyVolumesPhase e w).1 = none
    ∧ (destroyVolumesPhase e w).2.2
        = (ephemerals e.spec).map (fun v => Call.volumeRemove v.uid) := by
  unfold destroyVolumesPhase
  unfold ephemerals at hall ⊢
  cases hd : e.spec.docker with
  | none => exact ⟨rfl, rfl⟩
  | some d =>
    rw [hd] at hall
    dsimp only at hall ⊢
    exact destroyVolumes_seq_ok e d.volumes w hall

/-- C3 (amended): in `Destroy`, per-container kill and remove errors are
discarded, so the container phase issues a kill and a remove for every
step, in order; the first ephemeral-volume removal error is returned and
aborts the remaining cleanup INCLUDING the network removal, which is then
never attempted; only when every volume removal succeeds is the network
removal issued, and then its result is `Destroy`'s return value. -/
theorem destroy_error_flow (e : dockerEngine) (w : World) :
    ((destroyContainers e e.spec.steps w).2
        = e.spec.steps.flatMap
            (fun s => [Call.containerKill s.uid "9", Call.containerRemove s.uid]))
    ∧ (∀ k err,
        (volRemoveSeq e.client (ephemerals e.spec)
            (destroyContainers e e.spec.steps w).1).get? k = some (some err) →
        (∀ j, j < k →
          (volRemoveSeq e.client (ephemerals e.spec)
              (destroyContainers e e.spec.steps w).1).get? j = some none) →
        (Docker.Destroy e w).1 = some err
        ∧ (Docker.Destroy e w).2.2
            = (destroyContainers e e.spec.steps w).2
              ++ ((ephemerals e.spec).take (k + 1)).map
                  (fun v => Call.volumeRemove v.uid)
        ∧ ∀ nm, Call.networkRemove nm ∉ (Docker.Destroy e w).2.2)
    ∧ ((∀ r ∈ volRemoveSeq e.client (ephemerals e.spec)
            (destroyContainers e e.spec.steps w).1, r = none) →
        (Docker.Destroy e w).1
          = (networkRemoveCall e.client e.spec.uid
              (destroyVolumesPhase e
                (destroyContainers e e.spec.steps w).1).2.1).1
        ∧ (Docker.Destroy e w).2.2
            = (destroyContainers e e.spec.steps w).2
              ++ (ephemerals e.spec).map (fun v => Call.volumeRemove v.uid)
              ++ [Call.networkRemove e.spec.uid]) := by
  have htA := destroyContainers_trace e e.spec.steps w
  unfold Docker.Destroy
  cases hdc : destroyContainers e e.spec.steps w with
  | mk w₁ t₁ =>
    rw [hdc] at htA
    dsimp only at htA ⊢
    refine ⟨htA, ?_, ?_⟩
    · intro k err hk hj
      have hvp := destroyVolumesPhase_seq_fail e w₁ k err hk hj
      cases hvp2 : destroyVolumesPhase e w₁ with
      | mk r p =>
        rw [hvp2] at hvp
        dsimp only at hvp ⊢
        obtain ⟨hr, htr⟩ := hvp
        subst hr
        dsimp only
        refine ⟨rfl, ?_, ?_⟩
        · rw [htr]
        · intro nm hmem
          rw [htr, htA] at hmem
          simp at hmem
          obtain ⟨v, -, hv⟩ := List.mem_map.1 (List.mem_of_mem_take hmem)
          exact Call.noConfusion hv
    · intro hall
      have hvp := destroyVolumesPhase_seq_ok e w₁ hall
      cases hvp2 : destroyVolumesPhase e w₁ with
      | mk r p =>
        rw [hvp2] at hvp
        dsimp only at hvp ⊢
        obtain ⟨hr, htr⟩ := hvp
        subst hr
        dsimp only
        cases hnr : networkRemoveCall e.client e.spec.uid p.1 with
        | mk rn w₃ =>
          dsimp only
          refine ⟨rfl, ?_⟩
          rw [htr]

/-- Instances of `destroy_error_flow`: with a failing volume removal,
`Destroy` returns that error and its trace contains no network removal;
with a fully successful client, the trace ends with the network removal. -/
theorem destroy_error_flow_witness :
    ((Docker.Destroy ⟨destroySpec, destroyFailClient⟩ destroyWorld).1
        = some (RTErr.generic 7)
      ∧ (Docker.Destroy ⟨destroySpec, destroyFailClient⟩ destroyWorld).2.2
          = [Call.containerKill "s1" "9", Call.containerRemove "s1",
             Call.volumeRemove "v1"])
    ∧ ((Docker.Destroy ⟨destroySpec, noopClient⟩ destroyWorld).1 = none
      ∧ (Docker.Destroy ⟨destroySpec, noopClient⟩ destroyWorld).2.2
          = [Call.containerKill "s1" "9", Call.containerRemove "s1",
             Call.volumeRemove "v1", Call.networkRemove "n1"]) := by
  have h₁ := (destroy_error_flow ⟨destroySpec, destroyFailClient⟩ destroyWorld).2.1
    0 (RTErr.generic 7) (by decide) (fun j hj => absurd hj (Nat.not_lt_zero j))
  have h₂ := (destroy_error_flow ⟨destroySpec, noopClient⟩ destroyWorld).2.2
    (by decide)
  refine ⟨⟨h₁.1, ?_⟩, ?_, ?_⟩
  · rw [h₁.2.1]; decide
  · rw [h₂.1]; decide
  · rw [h₂.2]; decide

/-- C3, refutation of the original wording: when a volume removal fails,
`Destroy` returns the error and the network removal is NOT attempted —
the trace ends at the failing volume removal and contains no
`networkRemove` call. -/
theorem destroy_network_skipped_counterexample :
    (Docker.Destroy ⟨destroySpec, destroyFailClient⟩ destroyWorld).1
        = some (RTErr.generic 7)
    ∧ (Docker.Destroy ⟨destroySpec, destroyFailClient⟩ destroyWorld).2.2
        = [Call.containerKill "s1" "9", Call.containerRemove "s1",
           Call.volumeRemove "v1"] := by
  decide

/-- Every volume-create call issued by the `Setup` volume loop targets the
uid of an ephemeral member of the list, with driver `local`. -/
theorem setupVolumes_targets (e : dockerEngine) :
    ∀ (vols : List Volume) (w : World) (n d : String)
      (l : List (String × String)),
      Call.volumeCreate n d l ∈ (setupVolumes e vols w).2.2 →
      ∃ v, v ∈ vols ∧ v.emptyDir ≠ none ∧ n = v.uid ∧ d = "local" := by
  intro vols
  induction vols with
  | nil => intro w n d l h; simp [setupVolumes] at h
  | cons v0 rest ih =>
    intro w n d l h
    unfold setupVolumes at h
    by_cases hskip : v0.emptyDir = none
    · rw [if_pos hskip] at h
      obtain ⟨v, hv, hr⟩ := ih w n d l h
      exact ⟨v, List.mem_cons_of_mem v0 hv, hr⟩
    · rw [if_neg hskip] at h
      cases hvc : volumeCreateCall e.client v0.uid w with
      | mk r w' =>
        rw [hvc] at h
        cases r with
        | some err =>
          dsimp only at h
          rw [List.mem_singleton] at h
          injection h with h1 h2 h3
          exact ⟨v0, List.mem_cons_self v0 rest, hskip, h1, h2⟩
        | none =>
          dsimp only at h
          rcases List.mem_cons.mp h with heq | h'
          · injection heq with h1 h2 h3
            exact ⟨v0, List.mem_cons_self v0 rest, hskip, h1, h2⟩
          · obtain ⟨v, hv, hr⟩ := ih w' n d l h'
            exact ⟨v, List.mem_cons_of_mem v0 hv, hr⟩

/-- Membership in the declared ephemerals. -/
theorem ephemerals_mem {spec : Spec} {v : Volume} (h : v ∈ ephemerals spec) :
    v ∈ declaredVolumes spec ∧ v.emptyDir ≠ none := by
  unfold ephemerals at h
  unfold declaredVolumes
  cases hd : spec.docker with
  | none => rw [hd] at h; simp at h
  | some d =>
    rw [hd] at h
    dsimp only at h ⊢
    have hf := List.mem_filter.mp h
    exact ⟨hf.1, by simpa using hf.2⟩

/-- Every volume-create call in a `Setup` trace targets a declared
ephemeral uid and uses the `local` driver. -/
theorem setup_targets (e : dockerEngine) (w : World) (n d : String)
    (l : List (String × String))
    (h : Call.volumeCreate n d l ∈ (Docker.Setup e w).2.2) :
    d = "local" ∧ n ∈ (ephemerals e.spec).map (fun v => v.uid) := by
  unfold Docker.Setup at h
  unfold ephemerals
  cases hd : e.spec.docker with
  | none =>
    rw [hd] at h
    dsimp only at h
    simp at h
  | some d2 =>
    rw [hd] at h
    dsimp only at h ⊢
    cases hsv : setupVolumes e d2.volumes w with
    | mk r q =>
      rw [hsv] at h
      cases r with
      | some err =>
        dsimp only at h
        obtain ⟨v, hv, hve, rfl, rfl⟩ :=
          setupVolumes_targets e d2.volumes w n d l (by rw [hsv]; exact h)
        exact ⟨rfl, List.mem_map.2 ⟨v, List.mem_filter.2 ⟨hv, by simp [hve]⟩, rfl⟩⟩
      | none =>
        dsimp only at h
        rcases List.mem_append.mp h with h1 | h1
        · obtain ⟨v, hv, hve, rfl, rfl⟩ :=
            setupVolumes_targets e d2.volumes w n d l (by rw [hsv]; exact h1)
          exact ⟨rfl, List.mem_map.2 ⟨v, List.mem_filter.2 ⟨hv, by simp [hve]⟩, rfl⟩⟩
        · rw [List.mem_singleton] at h1
          exact Call.noConfusion h1

/-- Every volume-remove call issued by the `Destroy` volume loop targets
the uid of an ephemeral member of the list. -/
theorem destroyVolumes_targets (e : dockerEngine) :
    ∀ (vols : List Volume) (w : World) (n : String),
      Call.volumeRemove n ∈ (destroyVolumes e vols w).2.2 →
      ∃ v, v ∈ vols ∧ v.emptyDir ≠ none ∧ n = v.uid := by
  intro vols
  induction vols with
  | nil => intro w n h; simp [destroyVolumes] at h
  | cons v0 rest ih =>
    intro w n h
    unfold destroyVolumes at h
    by_cases hskip : v0.emptyDir = none
    · rw [if_pos hskip] at h
      obtain ⟨v, hv, hr⟩ := ih w n h
      exact ⟨v, List.mem_cons_of_mem v0 hv, hr⟩
    · rw [if_neg hskip] at h
      cases hvc : volumeRemoveCall e.client v0.uid w with
      | mk r w' =>
        rw [hvc] at h
        cases r with
        | some err =>
          dsimp only at h
          rw [List.mem_singleton] at h
          injection h with h1
          exact ⟨v0, List.mem_cons_self v0 rest, hskip, h1⟩
        | none =>
          dsimp only at h
          rcases List.mem_cons.mp h with heq | h'
          · injection heq with h1
            exact ⟨v0, List.mem_cons_self v0 rest, hskip, h1⟩
          · obtain ⟨v, hv, hr⟩ := ih w' n h'
            exact ⟨v, List.mem_cons_of_mem v0 hv, hr⟩

/-- `destroyVolumes_targets` lifted to the volume phase. -/
theorem destroyVolumesPhase_targets (e : dockerEngine) (w : World) (n : String)
    (h : Call.volumeRemove n ∈ (destroyVolumesPhase e w).2.2) :
    n ∈ (ephemerals e.spec).map (fun v => v.uid) := by
  unfold destroyVolumesPhase at h
  unfold ephemerals
  cases hd : e.spec.docker with
  | none => rw [hd] at h; simp at h
  | some d =>
    rw [hd] at h
    dsimp only at h ⊢
    obtain ⟨v, hv, hve, rfl⟩ := destroyVolumes_targets e d.volumes w n h
    exact List.mem_map.2 ⟨v, List.mem_filter.2 ⟨hv, by simp [hve]⟩, rfl⟩

/-- Every volume-remove call in a `Destroy` trace targets a declared
ephemeral uid. -/
theorem destroy_targets (e : dockerEngine) (w : World) (n : String)
    (h : Call.volumeRemove n ∈ (Docker.Destroy e w).2.2) :
    n ∈ (ephemerals e.spec).map (fun v => v.uid) := by
  have htA := destroyContainers_trace e e.spec.steps w
  unfold Docker.Destroy at h
  cases hdc : destroyContainers e e.spec.steps w with
  | mk w₁ t₁ =>
    rw [hdc] at h htA
    dsimp only at h htA
    have hnotA : Call.volumeRemove n ∉ t₁ := by
      rw [htA]
      intro hmm
      obtain ⟨s, -, hs⟩ := List.mem_flatMap.1 hmm
      rcases List.mem_cons.mp hs with h1 | h1
      · exact Call.noConfusion h1
      · rcases List.mem_cons.mp h1 with h2 | h2
        · exact Call.noConfusion h2
        · simp at h2
    have hphase := destroyVolumesPhase_targets e w₁ n
    cases hvp : destroyVolumesPhase e w₁ with
    | mk r p =>
      rw [hvp] at h hphase
      dsimp only at h hphase
      cases r with
      | some err =>
        dsimp only at h
        rcases List.mem_append.mp h with h1 | h1
        · exact absurd h1 hnotA
        · exact hphase h1
      | none =>
        dsimp only at h
        rcases List.mem_append.mp h with h1 | h1
        · rcases List.mem_append.mp h1 with h2 | h2
          · exact absurd h2 hnotA
          · exact hphase h2
        · rw [List.mem_singleton] at h1
          exact Call.noConfusion h1

/-- `createRest` issues no volume call beyond those of the given leading
trace. -/
theorem createRest_noVolume (e : dockerEngine) (step : Step) (sd : StepDocker)
    (w : World) (t₀ : List Call)
    (h₀ : ∀ c ∈ t₀, isVolumeCall c = false) :
    ∀ c ∈ (createRest e step sd w t₀).2.2, isVolumeCall c = false := by
  intro c hc
  unfold createRest at hc
  have hpp := (phase_trace_props e step sd w).2.1
  cases hp : createContainerPhase e step sd w with
  | mk r q =>
    rw [hp] at hc hpp
    dsimp only at hc hpp
    cases r with
    | some err =>
      dsimp only at hc
      rcases List.mem_append.mp hc with h1 | h1
      · exact h₀ c h1
      · exact hpp c h1
    | none =>
      dsimp only at hc
      cases hcf : copyFiles e step.uid step.files q.1 with
      | mk r2 q2 =>
        rw [hcf] at hc
        dsimp only at hc
        rcases List.mem_append.mp hc with h1 | h1
        · rcases List.mem_append.mp h1 with h2 | h2
          · exact h₀ c h2
          · exact hpp c h2
        · obtain ⟨tar, rfl⟩ := copyFiles_calls_copyOnly e step.uid
            step.files q.1 c (by rw [hcf]; exact h1)
          rfl

/-- `Create` issues no volume call. -/
theorem create_noVolume (e : dockerEngine) (step : Step) (w : World) :
    ∀ c ∈ (Docker.Create e step w).2.2, isVolumeCall c = false := by
  intro c hc
  cases hd : step.docker with
  | none =>
    unfold Docker.Create at hc
    rw [hd] at hc
    simp at hc
  | some sd =>
    cases hpi : parseImage sd.image with
    | error pe =>
      unfold Docker.Create at hc
      rw [hd] at hc
      dsimp only at hc
      rw [hpi] at hc
      simp at hc
    | ok tri =>
      obtain ⟨can, dom, latest⟩ := tri
      cases hP : prePullCond sd latest with
      | false =>
        rw [create_eq_rest_nopre e step sd w hd hpi hP] at hc
        exact createRest_noVolume e step sd w []
          (by intro x hx; simp at hx) c hc
      | true =>
        cases hpl : e.client.pullO w.time with
        | some pe =>
          rw [create_eq_pullfail e step sd w hd hpi hP hpl] at hc
          dsimp only at hc
          rw [List.mem_singleton] at hc
          subst hc
          rfl
        | none =>
          rw [create_eq_rest_pre e step sd w hd hpi hP hpl] at hc
          exact createRest_noVolume e step sd (tick w) [Call.imagePull sd.image]
            (by
              intro x hx
              rw [List.mem_singleton] at hx
              subst hx
              rfl) c hc

/-- `Start` issues no volume call. -/
theorem start_noVolume (e : dockerEngine) (step : Step) (w : World) :
    ∀ c ∈ (Docker.Start e step w).2.2, isVolumeCall c = false := by
  intro c hc
  unfold Docker.Start startCall at hc
  dsimp only at hc
  rw [List.mem_singleton] at hc
  subst hc
  rfl

/-- `Wait` issues no volume call. -/
theorem wait_noVolume (e : dockerEngine) (step : Step) (sig : WaitSignal)
    (w : World) :
    ∀ c ∈ (Docker.Wait e step sig w).2.2, isVolumeCall c = false := by
  intro c hc
  unfold Docker.Wait inspectCall at hc
  dsimp only at hc
  cases hio : e.client.inspectO (tick w).time with
  | error err =>
    rw [hio] at hc
    dsimp only at hc
    rcases List.mem_cons.mp hc with rfl | hc'
    · rfl
    · rw [List.mem_singleton] at hc'
      subst hc'
      rfl
  | ok info =>
    rw [hio] at hc
    dsimp only at hc
    rcases List.mem_cons.mp hc with rfl | hc'
    · rfl
    · rw [List.mem_singleton] at hc'
      subst hc'
      rfl

/-- `Tail` issues no volume call. -/
theorem tail_noVolume (e : dockerEngine) (step : Step) (w : World) :
    ∀ c ∈ (Docker.Tail e step w).2.2, isVolumeCall c = false := by
  intro c hc
  unfold Docker.Tail logsCall at hc
  dsimp only at hc
  rw [List.mem_singleton] at hc
  subst hc
  rfl

/-- C8: across every operation of the engine, volume-create calls occur
only in `Setup`, volume-remove calls only in `Destroy`, and both target
only the uids of declared ephemeral volumes (creation with the `local`
driver); `Create`, `Start`, `Wait` and `Tail` issue no volume call at
all; and when the declared volume uids are distinct, a declared volume
without an `EmptyDir` configuration is never the target of a
volume-create or volume-remove call. -/
theorem volume_lifecycle_invariant (e : dockerEngine) (step : Step)
    (sig : WaitSignal) (w : World) :
    (∀ n d l, Call.volumeCreate n d l ∈ (Docker.Setup e w).2.2 →
        d = "local" ∧ n ∈ (ephemerals e.spec).map (fun v => v.uid))
    ∧ (∀ n, Call.volumeRemove n ∈ (Docker.Destroy e w).2.2 →
        n ∈ (ephemerals e.spec).map (fun v => v.uid))
    ∧ (∀ c ∈ (Docker.Create e step w).2.2, isVolumeCall c = false)
    ∧ (∀ c ∈ (Docker.Start e step w).2.2, isVolumeCall c = false)
    ∧ (∀ c ∈ (Docker.Wait e step sig w).2.2, isVolumeCall c = false)
    ∧ (∀ c ∈ (Docker.Tail e step w).2.2, isVolumeCall c = false)
    ∧ (((declaredVolumes e.spec).map (fun v => v.uid)).Nodup →
        ∀ v ∈ declaredVolumes e.spec, v.emptyDir = none →
          (∀ d l, Call.volumeCreate v.uid d l ∉ (Docker.Setup e w).2.2)
          ∧ Call.volumeRemove v.uid ∉ (Docker.Destroy e w).2.2) := by
  refine ⟨fun n d l h => setup_targets e w n d l h,
    fun n h => destroy_targets e w n h,
    create_noVolume e step w,
    start_noVolume e step w,
    wait_noVolume e step sig w,
    tail_noVolume e step w, ?_⟩
  intro hnd v hv hve
  constructor
  · intro d l hmem
    obtain ⟨-, hn⟩ := setup_targets e w v.uid d l hmem
    obtain ⟨v2, hv2, hu⟩ := List.mem_map.1 hn
    obtain ⟨hv2d, hv2e⟩ := ephemerals_mem hv2
    have hvv : v2 = v := List.inj_on_of_nodup_map hnd hv2d hv hu
    rw [hvv] at hv2e
    exact hv2e hve
  · intro hmem
    have hn := destroy_targets e w v.uid hmem
    obtain ⟨v2, hv2, hu⟩ := List.mem_map.1 hn
    obtain ⟨hv2d, hv2e⟩ := ephemerals_mem hv2
    have hvv : v2 = v := List.inj_on_of_nodup_map hnd hv2d hv hu
    rw [hvv] at hv2e
    exact hv2e hve

/-- Instance of `volume_lifecycle_invariant` on `sampleSpec`: the `v1`
creation found in the `Setup` trace targets an ephemeral uid, and the
external volume `v2` is never removed by `Destroy`. -/
theorem volume_lifecycle_invariant_witness :
    "v1" ∈ (ephemerals sampleSpec).map (fun v => v.uid)
    ∧ Call.volumeRemove "v2"
        ∉ (Docker.Destroy ⟨sampleSpec, noopClient⟩ sampleWorld).2.2 := by
  have h := volume_lifecycle_invariant ⟨sampleSpec, noopClient⟩ sampleStep
    (WaitSignal.body 0) sampleWorld
  refine ⟨?_, ?_⟩
  · exact (h.1 "v1" "local" [] (by decide)).2
  · exact (h.2.2.2.2.2.2 (by decide) ⟨"v2", none⟩ (by decide) rfl).2
